import Mathlib

/-!
Verification of the trinity_memory core services against their
natural-language specification.

The TypeScript sources are shallowly embedded: strings are `List Char`,
JavaScript numbers that carry scores are `ℚ`, timestamps are `Nat`
(milliseconds), fallible operations return `Except`, and the two shared
stores (Vector Index, Metadata Catalog) are explicit record states.
External capabilities (the Pinecone vector store, the NAS blob store, the
OpenAI calls) are modelled as explicit inputs, following the capability
contracts of the specification.
-/

namespace Trinity

/-! ## Basic text utilities (JavaScript string semantics on `List Char`) -/

/-- The whitespace test used by `String.prototype.trim` and `\s`,
restricted to the ASCII whitespace that actually occurs in the data. -/
def isWs (c : Char) : Bool :=
  c = ' ' || c = '\t' || c = '\n' || c = '\r'

/-- Model of `text.trimStart()`. -/
def trimLeft (l : List Char) : List Char :=
  l.dropWhile isWs

/-- Model of `text.trimEnd()`. -/
def trimRight (l : List Char) : List Char :=
  List.rdropWhile isWs l

/-- Model of `text.trim()`. -/
def trim (l : List Char) : List Char :=
  trimRight (trimLeft l)

/-- Model of `text.toLowerCase()` (ASCII). -/
def lower (l : List Char) : List Char :=
  l.map Char.toLower

/-- Model of `haystack.includes(needle)` for JavaScript strings. -/
def containsSub (needle hay : List Char) : Bool :=
  match hay with
  | [] => needle.isEmpty
  | _ :: t => needle.isPrefixOf hay || containsSub needle t

/-- Shorthand to write `List Char` literals. -/
def str (s : String) : List Char :=
  s.toList

/-! ## FileIndexer.chunkContent (src/services/indexer/file.indexer.ts)

```ts
private chunkContent(content: string, maxChunkSize: number = 1000): string[] {
  const chunks: string[] = [];
  const sentences = content.split(/[.!?]+/);
  let currentChunk = '';
  for (const sentence of sentences) {
    if (currentChunk.length + sentence.length > maxChunkSize && currentChunk) {
      chunks.push(currentChunk.trim());
      currentChunk = sentence;
    } else {
      currentChunk += (currentChunk ? '. ' : '') + sentence;
    }
  }
  if (currentChunk.trim()) {
    chunks.push(currentChunk.trim());
  }
  return chunks;
}
```
-/

/-- The sentence delimiter class `[.!?]`. -/
def isSentenceDelim (c : Char) : Bool :=
  c = '.' || c = '!' || c = '?'

/-- Worker for `splitSentences`: `inDelim` records whether the scanner is
inside a run of delimiters (the field before the run has already been
emitted), `acc` holds the characters of the current field in reverse. -/
def splitGo : Bool → List Char → List Char → List (List Char)
  | false, [], acc => [acc.reverse]
  | true, [], _ => [[]]
  | false, c :: t, acc =>
    if isSentenceDelim c then acc.reverse :: splitGo true t []
    else splitGo false t (c :: acc)
  | true, c :: t, _ =>
    if isSentenceDelim c then splitGo true t []
    else splitGo false t [c]

/-- Model of `content.split(/[.!?]+/)`: split on maximal runs of sentence
delimiters; like the JavaScript original it yields an empty field before a
leading delimiter run and after a trailing one. -/
def splitSentences (content : List Char) : List (List Char) :=
  splitGo false content []

/-- One iteration of the `for (const sentence of sentences)` loop; the
accumulator is `(chunks, currentChunk)`. -/
def chunkStep (maxChunkSize : Nat) (acc : List (List Char) × List Char)
    (sentence : List Char) : List (List Char) × List Char :=
  let chunks := acc.1
  let currentChunk := acc.2
  if maxChunkSize < currentChunk.length + sentence.length ∧ currentChunk ≠ [] then
    (chunks ++ [trim currentChunk], sentence)
  else
    (chunks, currentChunk ++ (if currentChunk ≠ [] then str ". " else []) ++ sentence)

/-- Model of `FileIndexer.chunkContent`; the source defaults `maxChunkSize` to
`1000` and every caller uses that default. -/
def chunkContent (content : List Char) (maxChunkSize : Nat) : List (List Char) :=
  let sentences := splitSentences content
  let acc := sentences.foldl (chunkStep maxChunkSize) ([], [])
  if trim acc.2 ≠ [] then acc.1 ++ [trim acc.2] else acc.1

/-- The final `if (currentChunk.trim()) chunks.push(currentChunk.trim())`
step of `chunkContent`, separated out for the loop invariants. -/
def chunkFinish (acc : List (List Char) × List Char) : List (List Char) :=
  if trim acc.2 ≠ [] then acc.1 ++ [trim acc.2] else acc.1

/-- The property the amended C6 claims for every emitted chunk: either it
fits in `max + 2` characters (the `'. '` separator is appended after the
size check), or it is the trimmed form of a single sentence of the input
that alone exceeds `max`. -/
def ChunkOk (S : List (List Char)) (max : Nat) (c : List Char) : Prop :=
  c.length ≤ max + 2 ∨ ∃ s ∈ S, max < s.length ∧ c = trim s

/-- Invariant of the `currentChunk` accumulator. -/
def CCOk (S : List (List Char)) (max : Nat) (cc : List Char) : Prop :=
  cc = [] ∨ cc.length ≤ max + 2 ∨ cc ∈ S

/-! ## QueryParser (src/services/pinecone/query.parser.ts)

The deterministic pattern stage `parseWithPatterns` is embedded with one
scanner per regular expression of the source.  Each scanner replicates the
JavaScript `String.match` semantics for its concrete pattern: positions
are tried left to right, alternatives in source order; since no two
alternatives of any of these patterns share a first character and no
starred class overlaps the token that follows it, maximal-munch scanning
is exact for them. -/

/-- Case-insensitive character comparison (the `/i` flag). -/
def eqI (a b : Char) : Bool :=
  a.toLower == b.toLower

/-- Match a literal pattern case-insensitively at the start of the input,
returning the rest. -/
def litI : List Char → List Char → Option (List Char)
  | [], rest => some rest
  | _, [] => none
  | p :: ps, c :: cs => if eqI p c then litI ps cs else none

/-- Match `\s+` at the start of the input. -/
def ws1 : List Char → Option (List Char)
  | [] => none
  | c :: cs => if isWs c then some (cs.dropWhile isWs) else none

/-- The `\d` class. -/
def isDigitCh (c : Char) : Bool :=
  c.isDigit

/-- Match exactly `n` digits (`\d{n}`). -/
def takeDigitsN : Nat → List Char → Option (List Char × List Char)
  | 0, rest => some ([], rest)
  | _ + 1, [] => none
  | n + 1, c :: cs =>
    if isDigitCh c then
      match takeDigitsN n cs with
      | some (ds, rest) => some (c :: ds, rest)
      | none => none
    else none

/-- Match `\d+` (maximal) at the start of the input. -/
def digits1 (l : List Char) : Option (List Char × List Char) :=
  let ds := l.takeWhile isDigitCh
  if ds = [] then none else some (ds, l.dropWhile isDigitCh)

/-- Match one expected character. -/
def lit1 (c : Char) : List Char → Option (List Char)
  | [] => none
  | d :: rest => if d = c then some rest else none

/-- Try a scanner at every position, leftmost first (JavaScript
`String.match` without the global flag). -/
def scanFirst {α : Type} (tryAt : List Char → Option α) : List Char → Option α
  | [] => tryAt []
  | c :: t => (tryAt (c :: t)) <|> scanFirst tryAt t

/-- Scanner for `/tagged?\s+(?:as|with)\s+"([^"]+)"/i` at one position;
returns the capture group (in original case, as `String.match` does). -/
def tagAt (l : List Char) : Option (List Char) := do
  let r1 ← litI (str "tagge") l
  let r2 := match r1 with
    | c :: cs => if eqI 'd' c then cs else r1
    | [] => r1
  let r3 ← ws1 r2
  let r4 ← litI (str "as") r3 <|> litI (str "with") r3
  let r5 ← ws1 r4
  let r6 ← lit1 '\"' r5
  let cap := r6.takeWhile (fun c => c ≠ '\"')
  let r7 := r6.dropWhile (fun c => c ≠ '\"')
  if cap = [] then none
  else
    match r7 with
    | c :: _ => if c = '\"' then some cap else none
    | [] => none

/-- First match of the tag pattern in the query. -/
def tagCapture (query : List Char) : Option (List Char) :=
  scanFirst tagAt query

/-- Scanner for `/(?:from|on|at)\s+(\d{4}-\d{2}-\d{2})/i` at one position;
returns capture group 1. -/
def dateAt (l : List Char) : Option (List Char) := do
  let r1 ← litI (str "from") l <|> litI (str "on") l <|> litI (str "at") l
  let r2 ← ws1 r1
  let (d1, r3) ← takeDigitsN 4 r2
  let r4 ← lit1 '-' r3
  let (d2, r5) ← takeDigitsN 2 r4
  let r6 ← lit1 '-' r5
  let (d3, _) ← takeDigitsN 2 r6
  pure (d1 ++ '-' :: d2 ++ '-' :: d3)

/-- First match of the explicit-date pattern in the query. -/
def explicitDateCapture (query : List Char) : Option (List Char) :=
  scanFirst dateAt query

/-- Scanner for `/last\s+(\d+)\s+(day|week|month)s?/i` at one position;
returns capture groups 1 and 2. -/
def relAt (l : List Char) : Option (List Char × List Char) := do
  let r1 ← litI (str "last") l
  let r2 ← ws1 r1
  let (ds, r3) ← digits1 r2
  let r4 ← ws1 r3
  if (litI (str "day") r4).isSome then pure (ds, str "day")
  else if (litI (str "week") r4).isSome then pure (ds, str "week")
  else if (litI (str "month") r4).isSome then pure (ds, str "month")
  else none

/-- First match of the relative-date pattern in the query. -/
def relativeDateCapture (query : List Char) : Option (List Char × List Char) :=
  scanFirst relAt query

/-- Scanner for `/(?:all|get|show|find)\s+<target>/i` at one position (the
trailing optional plural letters of the source patterns never affect the
boolean `test`). -/
def ftAt (target : List Char) (l : List Char) : Option Unit := do
  let r1 ← litI (str "all") l <|> litI (str "get") l <|> litI (str "show") l <|>
    litI (str "find") l
  let r2 ← ws1 r1
  let _ ← litI target r2
  pure ()

/-- Test for `/(?:all|get|show|find)\s+conversations?/i`. -/
def ftConversations (query : List Char) : Bool :=
  (scanFirst (ftAt (str "conversation")) query).isSome

/-- Test for `/(?:all|get|show|find)\s+summar(?:y|ies)/i`. -/
def ftSummaries (query : List Char) : Bool :=
  (scanFirst (fun l => ftAt (str "summary") l <|> ftAt (str "summaries") l) query).isSome

/-- Test for `/(?:all|get|show|find)\s+proposals?/i`. -/
def ftProposals (query : List Char) : Bool :=
  (scanFirst (ftAt (str "proposal")) query).isSome

/-- The list of `semanticIndicators` of the source. -/
def semanticIndicators : List (List Char) :=
  [str "about", str "regarding", str "related to", str "concerning",
   str "discuss", str "mention", str "talk about", str "similar to"]

/-- Value of `parseInt` on a captured digit string. -/
def digitsToNat (ds : List Char) : Nat :=
  ds.foldl (fun acc c => 10 * acc + (c.toNat - '0'.toNat)) 0

/-- The three values of `QueryIntentSchema.type`. -/
inductive IntentType
  | semantic
  | structured
  | hybrid
  deriving DecidableEq, Repr

/-- The values of `QueryIntentSchema.aggregation`. -/
inductive Aggregation
  | count
  | sum
  | average
  | group_by
  deriving DecidableEq, Repr

/-- Date strings produced by the pattern handlers.  The handlers of the
source produce either the captured literal, `new Date().toISOString()`, or
`calculateDateOffset(amount, unit).toISOString()`; the two clock-dependent
values are kept symbolic since no claim inspects them. -/
inductive DateVal
  | lit (s : List Char)
  | nowIso
  | offsetIso (amount : Nat) (unit : List Char)
  deriving DecidableEq, Repr

/-- A `dateRange` filter; `endDate` embeds the source field `end`. -/
structure DateRange where
  start : DateVal
  endDate : DateVal
  deriving DecidableEq, Repr

/-- The `filters` object of `QueryIntentSchema`. -/
structure QueryFilters where
  fileType : Option (List Char)
  tags : Option (List (List Char))
  dateRange : Option DateRange
  conversationId : Option (List Char)
  userId : Option (List Char)
  deriving DecidableEq, Repr

/-- A filters object with every field absent. -/
def emptyFilters : QueryFilters :=
  ⟨none, none, none, none, none⟩

/-- The `QueryIntent` shape (zod `QueryIntentSchema`). -/
structure QueryIntent where
  type : IntentType
  query : Option (List Char)
  filters : Option QueryFilters
  aggregation : Option Aggregation
  groupBy : Option (List Char)
  deriving DecidableEq, Repr

/-- The intent `{ type: 'semantic', query }`. -/
def semanticIntent (q : List Char) : QueryIntent :=
  ⟨IntentType.semantic, some q, none, none, none⟩

/-- Model of `QueryParser.parseWithPatterns`.  The checks run in the order
the source executes them: quoted tag, semantic indicators, date patterns,
file-type patterns, aggregation keywords. -/
def parseWithPatterns (query : List Char) : Option QueryIntent :=
  let lowerQuery := lower query
  match tagCapture query with
  | some tag =>
    some ⟨IntentType.structured, none, some ⟨none, some [tag], none, none, none⟩, none, none⟩
  | none =>
    if semanticIndicators.any (fun indicator => containsSub indicator lowerQuery) then
      some (semanticIntent query)
    else
      match explicitDateCapture query with
      | some d =>
        some ⟨IntentType.structured, none,
          some ⟨none, none, some ⟨DateVal.lit d, DateVal.lit d⟩, none, none⟩, none, none⟩
      | none =>
        match relativeDateCapture query with
        | some du =>
          some ⟨IntentType.structured, none,
            some ⟨none, none,
              some ⟨DateVal.offsetIso (digitsToNat du.1) du.2, DateVal.nowIso⟩, none, none⟩,
            none, none⟩
        | none =>
          if ftConversations query then
            some ⟨IntentType.structured, none,
              some ⟨some (str "conversation"), none, none, none, none⟩, none, none⟩
          else if ftSummaries query then
            some ⟨IntentType.structured, none,
              some ⟨some (str "summary"), none, none, none, none⟩, none, none⟩
          else if ftProposals query then
            some ⟨IntentType.structured, none,
              some ⟨some (str "proposal"), none, none, none, none⟩, none, none⟩
          else if containsSub (str "count") lowerQuery ||
              containsSub (str "how many") lowerQuery then
            some ⟨IntentType.structured, none, none, some Aggregation.count, none⟩
          else
            none

/-- Model of `QueryParser.parseWithAI`.  The whole body is wrapped in
`try/catch`; `outcome` is the result of the OpenAI call composed with
`JSON.parse` and the zod schema parse: `Except.error` covers a thrown or
timed-out request, a missing `function_call`, malformed JSON and a schema
mismatch.  The catch branch returns the semantic fallback. -/
def parseWithAI (userQuery : List Char) (outcome : Except Unit QueryIntent) : QueryIntent :=
  match outcome with
  | Except.ok intent => intent
  | Except.error _ => semanticIntent userQuery

/-- Model of `QueryParser.parseQuery`: patterns first, then the AI call. -/
def parseQuery (userQuery : List Char) (outcome : Except Unit QueryIntent) : QueryIntent :=
  match parseWithPatterns userQuery with
  | some patternResult => patternResult
  | none => parseWithAI userQuery outcome

/-! ## TriggerService (src/services/memory/trigger.service.ts) -/

/-- A conversation message as seen by the trigger engine. -/
structure MessageM where
  role : List Char
  content : List Char
  deriving DecidableEq, Repr

/-- The loosely-typed `conditions` JSON blob of a `MemoryRule`; a missing
JSON field is `none`. -/
structure RuleConditions where
  minMessages : Option Int
  maxMessages : Option Int
  keywords : Option (List (List Char))
  matchType : Option (List Char)
  interval : Option (List Char)
  specificTime : Option (List Char)
  daysOfWeek : Option (List Int)
  deriving DecidableEq, Repr

/-- The loosely-typed `actions` JSON blob; the five trigger flags are read
for JavaScript truthiness, the parameter fields with `|| default`.
`exportFlag` embeds the source field `export`. -/
structure RuleActions where
  generateSummary : Bool
  summaryStyle : Option (List Char)
  backup : Bool
  backupDestination : Option (List Char)
  notify : Bool
  notifyMethod : Option (List Char)
  notifyMessage : Option (List Char)
  exportFlag : Bool
  exportFormat : Option (List Char)
  exportDestination : Option (List Char)
  tag : Bool
  tags : Option (List (List Char))
  deriving DecidableEq, Repr

/-- A row of the `MemoryRule` table. -/
structure MemoryRuleM where
  id : List Char
  userId : List Char
  ruleType : List Char
  conditions : RuleConditions
  actions : RuleActions
  isActive : Bool
  deriving DecidableEq, Repr

/-- Parameter payload of a translated `TriggerAction`. -/
inductive ActionParams
  | summary (style : List Char)
  | backupP (destination : List Char)
  | notifyP (method : List Char) (message : Option (List Char))
  | exportP (format : List Char) (destination : Option (List Char))
  | tagP (tags : List (List Char))
  deriving DecidableEq, Repr

/-- A translated trigger action `{ type, params }`. -/
structure TriggerAction where
  type : List Char
  params : ActionParams
  deriving DecidableEq, Repr

/-- A row appended to the `MemoryTrigger` audit table. -/
structure TriggerRecord where
  triggerType : List Char
  conversationId : List Char
  ruleId : List Char
  deriving DecidableEq, Repr

/-- JavaScript `value || default` for an optional string field (an empty
string is falsy). -/
def jsOrStr (v : Option (List Char)) (d : List Char) : List Char :=
  match v with
  | some s => if s = [] then d else s
  | none => d

/-- JavaScript truthiness of an optional numeric field (`0` is falsy). -/
def jsTruthyNum : Option Int → Bool
  | none => false
  | some n => n ≠ 0

/-- JavaScript truthiness of an optional string field. -/
def jsTruthyStr : Option (List Char) → Bool
  | none => false
  | some s => s ≠ []

/-- JavaScript `array.join(' ')`. -/
def joinSpace : List (List Char) → List Char
  | [] => []
  | [x] => x
  | x :: y :: xs => x ++ ' ' :: joinSpace (y :: xs)

/-- Model of `TriggerService.parseActions`. -/
def parseActions (actions : RuleActions) : List TriggerAction :=
  (if actions.generateSummary then
    [⟨str "generate_summary", ActionParams.summary (jsOrStr actions.summaryStyle (str "brief"))⟩]
   else []) ++
  (if actions.backup then
    [⟨str "backup", ActionParams.backupP (jsOrStr actions.backupDestination (str "gdrive"))⟩]
   else []) ++
  (if actions.notify then
    [⟨str "notify",
      ActionParams.notifyP (jsOrStr actions.notifyMethod (str "email")) actions.notifyMessage⟩]
   else []) ++
  (if actions.exportFlag then
    [⟨str "export",
      ActionParams.exportP (jsOrStr actions.exportFormat (str "json")) actions.exportDestination⟩]
   else []) ++
  (if actions.tag then
    [⟨str "tag", ActionParams.tagP (actions.tags.getD [])⟩]
   else [])

/-- Model of `TriggerService.evaluateLengthRule`:

```ts
const messageCount = messages.length;
if (conditions.minMessages && messageCount < conditions.minMessages) return false;
if (conditions.maxMessages && messageCount > conditions.maxMessages) return false;
return true;
```
-/
def evaluateLengthRule (conditions : RuleConditions) (messages : List MessageM) : Bool :=
  let messageCount : Int := messages.length
  if jsTruthyNum conditions.minMessages ∧ messageCount < conditions.minMessages.getD 0 then
    false
  else if jsTruthyNum conditions.maxMessages ∧ conditions.maxMessages.getD 0 < messageCount then
    false
  else
    true

/-- Model of `TriggerService.evaluateKeywordRule`. -/
def evaluateKeywordRule (conditions : RuleConditions) (messages : List MessageM) : Bool :=
  let content := joinSpace (messages.map (fun m => lower m.content))
  let keywords := (conditions.keywords.getD []).map lower
  let matchType := jsOrStr conditions.matchType (str "any")
  if matchType = str "any" then
    keywords.any (fun keyword => containsSub keyword content)
  else
    keywords.all (fun keyword => containsSub keyword content)

/-- Milliseconds per interval unit. -/
def unitMs (u : Char) : Nat :=
  if u = 's' then 1000
  else if u = 'm' then 60 * 1000
  else if u = 'h' then 60 * 60 * 1000
  else if u = 'd' then 24 * 60 * 60 * 1000
  else 7 * 24 * 60 * 60 * 1000

/-- Model of `TriggerService.parseInterval`: `^(\d+)([smhdw])$`, throwing
`Invalid interval format` on anything else. -/
def parseInterval (interval : List Char) : Except (List Char) Nat :=
  let ds := interval.takeWhile isDigitCh
  let rest := interval.dropWhile isDigitCh
  if ds = [] then Except.error (str "Invalid interval format: " ++ interval)
  else
    match rest with
    | [u] =>
      if u = 's' ∨ u = 'm' ∨ u = 'h' ∨ u = 'd' ∨ u = 'w' then
        Except.ok (digitsToNat ds * unitMs u)
      else Except.error (str "Invalid interval format: " ++ interval)
    | _ => Except.error (str "Invalid interval format: " ++ interval)

/-- Environment of a time-rule evaluation: the newest `time`-type
`MemoryTrigger` row of the user, the current clock, today's weekday. -/
structure TriggerEnv where
  lastTimeTriggerAt : Option Nat
  now : Nat
  today : Int
  deriving DecidableEq, Repr

/-- Model of `TriggerService.evaluateTimeRule`.  An unparseable interval
string propagates its thrown error (there is no catch in the source). -/
def evaluateTimeRule (conditions : RuleConditions) (env : TriggerEnv) :
    Except (List Char) Bool := do
  let blocked ←
    if jsTruthyStr conditions.interval then
      match env.lastTimeTriggerAt with
      | some t => do
        let intervalMs ← parseInterval (conditions.interval.getD [])
        pure (decide (env.now - t < intervalMs))
      | none => pure false
    else
      pure false
  if blocked then
    pure false
  else
    match conditions.daysOfWeek with
    | some ds => pure (decide (env.today ∈ ds))
    | none => pure true

/-- Model of `TriggerService.evaluateRule` (dispatch on `ruleType`; an
unknown type logs a warning and yields `false`). -/
def evaluateRule (rule : MemoryRuleM) (messages : List MessageM) (env : TriggerEnv) :
    Except (List Char) Bool :=
  if rule.ruleType = str "length" then Except.ok (evaluateLengthRule rule.conditions messages)
  else if rule.ruleType = str "keyword" then
    Except.ok (evaluateKeywordRule rule.conditions messages)
  else if rule.ruleType = str "time" then evaluateTimeRule rule.conditions env
  else Except.ok false

/-- The `for (const rule of rules)` loop of `evaluateTriggers`,
accumulating translated actions and `MemoryTrigger` audit rows; a thrown
error anywhere aborts the loop. -/
def evalTriggersLoop (messages : List MessageM) (env : TriggerEnv)
    (conversationId : List Char) :
    List MemoryRuleM → List TriggerAction × List TriggerRecord →
    Except (List Char) (List TriggerAction × List TriggerRecord)
  | [], acc => Except.ok acc
  | rule :: rest, acc => do
    let fired ← evaluateRule rule messages env
    if fired then
      evalTriggersLoop messages env conversationId rest
        (acc.1 ++ parseActions rule.actions,
         acc.2 ++ [⟨rule.ruleType, conversationId, rule.id⟩])
    else
      evalTriggersLoop messages env conversationId rest acc

/-- Model of `TriggerService.evaluateTriggers`.  `rules` is the whole
`MemoryRule` table; the `findMany` call selects the user's active rules. -/
def evaluateTriggers (rules : List MemoryRuleM) (conversationId : List Char)
    (messages : List MessageM) (userId : List Char) (env : TriggerEnv) :
    Except (List Char) (List TriggerAction × List TriggerRecord) :=
  let active := rules.filter (fun r => r.userId == userId && r.isActive)
  evalTriggersLoop messages env conversationId active ([], [])

/-! ## SearchService (src/services/search/search.service.ts)

The claims cite the first (canonical) variant of the file: `semanticSearch`
(lines 89-123), `structuredSearch` (128-172), `hybridSearch` (177-212) and
`retrieveFileContents` (217-270).  The Pinecone store is external: its
index is modelled as the list of entries already ranked by the store's
similarity to the query under consideration, and the capability
`similaritySearch(query, k, filter)` applies the metadata filter and
returns the first `k` entries (spec section 6).  The Metadata Catalog is
the list of `NasFile` rows, the blob store a partial function from paths
to contents. -/

/-- One entry of the shared Vector Index together with the fields the
search path reads: the `filePath`/`userId`/`fileType` metadata and the
`score` property of the returned result object (`none` when the returned
object carries no score; the service reads it as `score || 0`). -/
structure VectorEntry where
  filePath : List Char
  userId : List Char
  fileType : List Char
  score : Option ℚ
  deriving DecidableEq, Repr

/-- The metadata filter built by `semanticSearch`:
`{ userId, fileType?: { $in: fileTypes } }`. -/
structure VectorFilter where
  userId : List Char
  fileTypeIn : Option (List (List Char))
  deriving DecidableEq, Repr

/-- Whether a vector entry satisfies the metadata filter. -/
def matchesFilter (f : VectorFilter) (e : VectorEntry) : Bool :=
  e.userId == f.userId &&
    (match f.fileTypeIn with
     | some ts => ts.contains e.fileType
     | none => true)

/-- The vector capability `similaritySearch(query, k, filter)`: the index
comes ranked by similarity; the store applies the mandatory metadata
filter and returns the top `k`. -/
def similaritySearchCap (index : List VectorEntry) (k : Nat) (filter : VectorFilter) :
    List VectorEntry :=
  (index.filter (matchesFilter filter)).take k

/-- A `NasFile` row of the Metadata Catalog (prisma model `NasFile`; the
free-form `metadata` JSONB column is omitted, no claim reads it). -/
structure NasFileRec where
  id : List Char
  userId : List Char
  filePath : List Char
  fileName : List Char
  folderPath : List Char
  fileType : Option (List Char)
  fileSize : Option Nat
  mimeType : Option (List Char)
  checksum : Option (List Char)
  createdAt : Int
  modifiedAt : Int
  lastAccessed : Option Int
  indexedAt : Option Int
  title : Option (List Char)
  summary : Option (List Char)
  tags : List (List Char)
  conversationId : Option (List Char)
  vectorIds : List (List Char)
  deriving DecidableEq, Repr

/-- The `SearchOptions` argument. -/
structure SearchOptions where
  limit : Option Nat
  offset : Option Nat
  fileTypes : Option (List (List Char))
  tags : Option (List (List Char))
  dateRange : Option (Int × Int)
  deriving DecidableEq, Repr

/-- The `intent.filters` object as consumed by `structuredSearch`
(`dateRange` bounds as catalog timestamps). -/
structure SearchFilters where
  fileType : Option (List Char)
  tags : Option (List (List Char))
  dateRange : Option (Int × Int)
  conversationId : Option (List Char)
  deriving DecidableEq, Repr

/-- JavaScript `value || undefined` on a nullable string column. -/
def jsStrOrNone (v : Option (List Char)) : Option (List Char) :=
  match v with
  | some s => if s = [] then none else some s
  | none => none

/-- JavaScript `value || default` for an optional numeric field (`0` is
falsy and falls back to the default, as in `options?.limit || 10`). -/
def jsOrNat (v : Option Nat) (d : Nat) : Nat :=
  match v with
  | some n => if n = 0 then d else n
  | none => d

/-- Stable insertion of `x` into a list sorted descending by `key`:
`x` goes before the first element with a key not larger than its own
(stability of `Array.prototype.sort`). -/
def insertDescBy {α β : Type} [LinearOrder β] (key : α → β) (x : α) : List α → List α
  | [] => [x]
  | y :: ys => if key y ≤ key x then x :: y :: ys else y :: insertDescBy key x ys

/-- Stable sort, descending by `key` (`arr.sort((a, b) => key b - key a)`). -/
def sortDescBy {α β : Type} [LinearOrder β] (key : α → β) (l : List α) : List α :=
  l.foldr (insertDescBy key) []

/-- JavaScript `Map` lookup over an insertion-ordered association list. -/
def mapGet {β : Type} (m : List (List Char × β)) (k : List Char) : Option β :=
  match m.find? (fun p => p.1 == k) with
  | some p => some p.2
  | none => none

/-- JavaScript `Map.set`: overwrite in place, or append a new key. -/
def mapSet {β : Type} (m : List (List Char × β)) (k : List Char) (v : β) :
    List (List Char × β) :=
  if (m.find? (fun p => p.1 == k)).isSome then
    m.map (fun p => if p.1 == k then (k, v) else p)
  else
    m ++ [(k, v)]

/-- The `(result as any).score || 0` read. -/
def getScore (e : VectorEntry) : ℚ :=
  e.score.getD 0

/-- One step of the `vectorResults.forEach` loop of `semanticSearch`:
`pathScores.set(path, Math.max(currentScore, score || 0))`. -/
def semanticScoreStep (m : List (List Char × ℚ)) (r : VectorEntry) :
    List (List Char × ℚ) :=
  mapSet m r.filePath (max ((mapGet m r.filePath).getD 0) (getScore r))

/-- Model of `SearchService.semanticSearch` (first variant): filter the
Vector Index by `userId` (and `fileType` when `options.fileTypes` is a
nonempty list), keep the best score per file path, sort descending and
return the top `limit` paths. -/
def semanticSearch (index : List VectorEntry) (userId : List Char)
    (options : SearchOptions) : List (List Char) :=
  let filter : VectorFilter :=
    ⟨userId,
     match options.fileTypes with
     | some ts => if ts.length ≠ 0 then some ts else none
     | none => none⟩
  let vectorResults := similaritySearchCap index (jsOrNat options.limit 20) filter
  let pathScores := vectorResults.foldl semanticScoreStep []
  ((sortDescBy Prod.snd pathScores).take (jsOrNat options.limit 10)).map Prod.fst

/-- The `whereClause` predicate of `structuredSearch`, field by field as
the source builds it (JavaScript truthiness on each filter). -/
def whereMatch (filters : SearchFilters) (userId : List Char) (options : SearchOptions)
    (f : NasFileRec) : Bool :=
  let typeIn : Option (List (List Char)) :=
    if jsTruthyStr filters.fileType then some [filters.fileType.getD []]
    else if (options.fileTypes.getD []).length ≠ 0 then options.fileTypes
    else none
  let tagsEvery : Option (List (List Char)) :=
    if filters.tags.isSome then filters.tags
    else if (options.tags.getD []).length ≠ 0 then options.tags
    else none
  let dateR : Option (Int × Int) :=
    match filters.dateRange with
    | some r => some r
    | none => options.dateRange
  f.userId == userId &&
    ((match typeIn with
      | some ts => ts.contains (f.fileType.getD [])
      | none => true) &&
     ((match tagsEvery with
       | some ts => ts.all (fun t => f.tags.contains t)
       | none => true) &&
      ((match dateR with
        | some r => decide (r.1 ≤ f.createdAt) && decide (f.createdAt ≤ r.2)
        | none => true) &&
       (match (if jsTruthyStr filters.conversationId then filters.conversationId else none) with
        | some cid => f.conversationId == some cid
        | none => true))))

/-- The non-user conjuncts of `whereMatch`, factored out so the
user-scoping proofs can split the catalog filter. -/
def whereMatchRest (filters : SearchFilters) (options : SearchOptions)
    (f : NasFileRec) : Bool :=
  let typeIn : Option (List (List Char)) :=
    if jsTruthyStr filters.fileType then some [filters.fileType.getD []]
    else if (options.fileTypes.getD []).length ≠ 0 then options.fileTypes
    else none
  let tagsEvery : Option (List (List Char)) :=
    if filters.tags.isSome then filters.tags
    else if (options.tags.getD []).length ≠ 0 then options.tags
    else none
  let dateR : Option (Int × Int) :=
    match filters.dateRange with
    | some r => some r
    | none => options.dateRange
  (match typeIn with
   | some ts => ts.contains (f.fileType.getD [])
   | none => true) &&
    ((match tagsEvery with
      | some ts => ts.all (fun t => f.tags.contains t)
      | none => true) &&
     ((match dateR with
       | some r => decide (r.1 ≤ f.createdAt) && decide (f.createdAt ≤ r.2)
       | none => true) &&
      (match (if jsTruthyStr filters.conversationId then filters.conversationId else none) with
       | some cid => f.conversationId == some cid
       | none => true)))

/-- The non-user conjunct of `matchesFilter`, factored likewise. -/
def matchesFilterRest (fto : Option (List (List Char))) (e : VectorEntry) : Bool :=
  match fto with
  | some ts => ts.contains e.fileType
  | none => true

/-- Model of `SearchService.structuredSearch` (first variant): query the
catalog with the built `whereClause`, order by `createdAt` descending,
paginate, return the file paths. -/
def structuredSearch (catalog : List NasFileRec) (filters : SearchFilters)
    (userId : List Char) (options : SearchOptions) : List (List Char) :=
  let files := ((sortDescBy NasFileRec.createdAt
      (catalog.filter (whereMatch filters userId options))).drop
        (jsOrNat options.offset 0)).take (jsOrNat options.limit 10)
  files.map NasFileRec.filePath

/-- One step of the `semanticPaths.forEach` loop of `hybridSearch`:
`pathScores.set(path, (n - index) / n * 1.5)` where `n` is the length of
the semantic path list. -/
def hybridSemStep (n : Nat) (mp : List (List Char × ℚ)) (q : Nat × List Char) :
    List (List Char × ℚ) :=
  mapSet mp q.2 ((((n : ℚ) - (q.1 : ℚ)) / (n : ℚ)) * (3 / 2))

/-- One step of the `structuredPaths.forEach` loop of `hybridSearch`:
`pathScores.set(path, currentScore + (m - index) / m * 0.5)`. -/
def hybridStructStep (m1 : Nat) (mp : List (List Char × ℚ)) (q : Nat × List Char) :
    List (List Char × ℚ) :=
  mapSet mp q.2
    (((mapGet mp q.2).getD 0) + (((m1 : ℚ) - (q.1 : ℚ)) / (m1 : ℚ)) * (1 / 2))

/-- The score map built by `hybridSearch` from the two path lists: a
semantic path at index `i` of `n` contributes `(n - i) / n * 1.5`
(overwriting), a structured path at index `j` of `m` adds
`(m - j) / m * 0.5` to the existing score. -/
def hybridScores (semanticPaths structuredPaths : List (List Char)) :
    List (List Char × ℚ) :=
  let afterSemantic := semanticPaths.enum.foldl (hybridSemStep semanticPaths.length) []
  structuredPaths.enum.foldl (hybridStructStep structuredPaths.length) afterSemantic

/-- The merge step of `hybridSearch`: build the score map, sort descending
by combined score, truncate to `limit`, return the paths. -/
def hybridMerge (semanticPaths structuredPaths : List (List Char)) (limit : Nat) :
    List (List Char) :=
  ((sortDescBy Prod.snd (hybridScores semanticPaths structuredPaths)).take limit).map
    Prod.fst

/-- Model of `SearchService.hybridSearch` (first variant): run the two
legs and merge. -/
def hybridSearch (index : List VectorEntry) (catalog : List NasFileRec)
    (filters : SearchFilters) (userId : List Char) (options : SearchOptions) :
    List (List Char) :=
  hybridMerge (semanticSearch index userId options)
    (structuredSearch catalog filters userId options) (jsOrNat options.limit 10)

/-- The `SearchResult` shape (content retrieval fields; `metadata`
omitted as above, `score` is the constant `1.0` the source assigns). -/
structure SearchResultM where
  id : List Char
  path : List Char
  fileName : List Char
  fileType : List Char
  content : List Char
  tags : List (List Char)
  summary : Option (List Char)
  createdAt : Int
  score : ℚ
  deriving DecidableEq, Repr

/-- Lookup in the `new Map(fileRecords.map(f => [f.filePath, f]))`: a
`Map` built from an array keeps the last entry for a duplicated key. -/
def lastByPath (records : List NasFileRec) (p : List Char) : Option NasFileRec :=
  (records.filter (fun f => f.filePath == p)).getLast?

/-- Model of `SearchService.retrieveFileContents` (first variant).  `nas`
is the blob-read capability; a failed read (`none`) yields `null` for that
path (the per-path `catch`), as does a path without a catalog row.  The
best-effort access-log writes are swallowed side effects and not part of
the result. -/
def retrieveFileContents (catalog : List NasFileRec)
    (nas : List Char → Option (List Char)) (filePaths : List (List Char))
    (userId : List Char) : List (Option SearchResultM) :=
  let fileRecords := catalog.filter
    (fun f => filePaths.contains f.filePath && f.userId == userId)
  filePaths.map (fun p =>
    match lastByPath fileRecords p with
    | none => none
    | some rec =>
      match nas p with
      | none => none
      | some content =>
        some ⟨rec.id, rec.filePath, rec.fileName, jsOrStr rec.fileType (str "unknown"),
          content, rec.tags, jsStrOrNone rec.summary, rec.createdAt, 1⟩)

/-! ## FileIndexer and MemoryService writes
(src/services/indexer/file.indexer.ts, saveConversation of the
MemoryService variant that the spec describes)

The two shared stores touched by the write paths are modelled explicitly;
each operation is a list of primitive store writes (`Step`) so that every
intermediate state of an operation is a reachable state.  The embedding
keeps the conversation table and the blob store as passive logs. -/

/-- The result of `extractFileMetadata(filePath, content)` (a
deterministic function of the path and content; the claims only read
`checksum`, which is the hex sha256 digest of the content). -/
structure FileMetadataM where
  checksum : List Char
  size : Nat
  type : List Char
  title : List Char
  summary : List Char
  tags : List (List Char)
  conversationId : Option (List Char)
  deriving DecidableEq, Repr

/-- Joint state of the shared stores: ids present in the Vector Index,
the `NasFile` rows of the Metadata Catalog, the conversation ids, and the
blob writes. -/
structure Store where
  vectorIds : List (List Char)
  files : List NasFileRec
  conversations : List (List Char)
  blobs : List (List Char × List Char)
  deriving DecidableEq, Repr

/-- A primitive write against the stores. -/
inductive Step
  | vecUpsert (ids : List (List Char))
  | vecDelete (ids : List (List Char))
  | fileUpsert (rec : NasFileRec)
  | fileCreate (rec : NasFileRec)
  | fileDelete (id : List Char)
  | convCreate (id : List Char)
  | convUpdate (id : List Char)
  | msgCreateMany
  | blobWrite (path content : List Char)
  deriving DecidableEq, Repr

/-- Whether `f` matches the unique key `(userId, filePath)` of `rec`. -/
def sameKey (rec f : NasFileRec) : Bool :=
  f.userId == rec.userId && f.filePath == rec.filePath

/-- The `update` branch of the `nasFile.upsert` of `indexFile`: only
`fileSize/checksum/title/summary/tags/vectorIds/modifiedAt/indexedAt`
are overwritten on the existing row. -/
def applyUpdate (rec f : NasFileRec) : NasFileRec :=
  { f with
    fileSize := rec.fileSize
    checksum := rec.checksum
    title := rec.title
    summary := rec.summary
    tags := rec.tags
    vectorIds := rec.vectorIds
    modifiedAt := rec.modifiedAt
    indexedAt := rec.indexedAt }

/-- Model of `prisma.nasFile.upsert` keyed `userId_filePath`: update the
matching row when one exists, insert the whole row otherwise. -/
def upsertFile (files : List NasFileRec) (rec : NasFileRec) : List NasFileRec :=
  if files.any (sameKey rec) then
    files.map (fun f => if sameKey rec f then applyUpdate rec f else f)
  else
    files ++ [rec]

/-- Effect of one primitive write. -/
def applyStep (s : Store) (st : Step) : Store :=
  match st with
  | Step.vecUpsert ids =>
    { s with vectorIds := s.vectorIds ++ ids.filter (fun i => !(s.vectorIds.contains i)) }
  | Step.vecDelete ids =>
    { s with vectorIds := s.vectorIds.filter (fun i => !(ids.contains i)) }
  | Step.fileUpsert rec => { s with files := upsertFile s.files rec }
  | Step.fileCreate rec => { s with files := s.files ++ [rec] }
  | Step.fileDelete id => { s with files := s.files.filter (fun f => f.id != id) }
  | Step.convCreate id => { s with conversations := s.conversations ++ [id] }
  | Step.convUpdate _ => s
  | Step.msgCreateMany => s
  | Step.blobWrite p c => { s with blobs := s.blobs ++ [(p, c)] }

/-- Run a list of writes in order. -/
def runSteps (s : Store) (steps : List Step) : Store :=
  steps.foldl applyStep s

/-- The invariant of claim C1: no `NasFile` row lists a vector id that is
not present in the Vector Index. -/
def recordsBacked (s : Store) : Prop :=
  ∀ r ∈ s.files, ∀ vid ∈ r.vectorIds, vid ∈ s.vectorIds

instance (s : Store) : Decidable (recordsBacked s) :=
  inferInstanceAs (Decidable (∀ r ∈ s.files, ∀ vid ∈ r.vectorIds, vid ∈ s.vectorIds))

/-- Batches of size `n` (fuel-based so it evaluates in the kernel). -/
def chunksOfAux {α : Type} (n : Nat) : Nat → List α → List (List α)
  | _, [] => []
  | 0, l => [l]
  | fuel + 1, x :: xs => (x :: xs.take (n - 1)) :: chunksOfAux n fuel (xs.drop (n - 1))

/-- Split a list into consecutive batches of `n` elements
(`for (let i = 0; i < vectors.length; i += batchSize)`). -/
def chunksOf {α : Type} (n : Nat) (l : List α) : List (List α) :=
  chunksOfAux n l.length l

/-- The vector id `${checksum}_chunk_${i}` of `indexChunks`. -/
def vectorIdOf (checksum : List Char) (i : Nat) : List Char :=
  checksum ++ str "_chunk_" ++ Nat.toDigits 10 i

/-- The vector ids produced (and returned) by `indexChunks`. -/
def indexChunksIds (checksum : List Char) (chunks : List (List Char)) :
    List (List Char) :=
  (List.range chunks.length).map (vectorIdOf checksum)

/-- JavaScript `path.basename`. -/
def basename (p : List Char) : List Char :=
  (p.reverse.takeWhile (fun c => c ≠ '/')).reverse

/-- JavaScript `path.dirname`. -/
def dirname (p : List Char) : List Char :=
  let pre := (p.reverse.dropWhile (fun c => c ≠ '/')).reverse
  match pre with
  | [] => str "."
  | l => if l = ['/'] then l else l.dropLast

/-- The `NasFile` row `indexFile` upserts (the `create` shape; the
`update` branch of `upsertFile` copies the relevant fields out of it). -/
def indexFileRec (meta : FileMetadataM) (content : List Char) (statsSize : Nat)
    (filePath userId : List Char) (conversationId : Option (List Char)) (now : Int)
    (recId : List Char) : NasFileRec :=
  ⟨recId, userId, filePath, basename filePath, dirname filePath, some meta.type,
    some statsSize, none, some meta.checksum, now, now, none, some now,
    some meta.title, some meta.summary, meta.tags, conversationId,
    indexChunksIds meta.checksum (chunkContent content 1000)⟩

/-- The writes of `FileIndexer.indexFile` against the two shared stores,
in source order: the chunk vectors are upserted in batches of 100, and
only then is the `NasFile` row upserted with the returned `vectorIds`.
`meta` is the `extractFileMetadata` result for `(filePath, content)`,
`statsSize` the NAS stat, `now` the clock, `recId` the row id Prisma
assigns on insert. -/
def indexFileSteps (meta : FileMetadataM) (content : List Char) (statsSize : Nat)
    (filePath userId : List Char) (conversationId : Option (List Char)) (now : Int)
    (recId : List Char) : List Step :=
  let chunks := chunkContent content 1000
  let vectorIds := indexChunksIds meta.checksum chunks
  (chunksOf 100 vectorIds).map Step.vecUpsert ++
    [Step.fileUpsert
      (indexFileRec meta content statsSize filePath userId conversationId now recId)]

/-- Model of one `indexFile` call as a state transformer. -/
def runIndexFile (s : Store) (meta : FileMetadataM) (content : List Char)
    (statsSize : Nat) (filePath userId : List Char)
    (conversationId : Option (List Char)) (now : Int) (recId : List Char) : Store :=
  runSteps s (indexFileSteps meta content statsSize filePath userId conversationId now recId)

/-- The `prisma.nasFile.findFirst({ where: { filePath, userId } })` lookup. -/
def findFileRec (files : List NasFileRec) (filePath userId : List Char) :
    Option NasFileRec :=
  files.find? (fun f => f.filePath == filePath && f.userId == userId)

/-- Model of `FileIndexer.removeFileFromIndex`: look up the row; if absent
return; otherwise delete its vectors from the Vector Index (only when the
list is nonempty) and then delete the row by id. -/
def removeFileFromIndex (s : Store) (filePath userId : List Char) : Store :=
  match findFileRec s.files filePath userId with
  | none => s
  | some file =>
    let s1 := if 0 < file.vectorIds.length then applyStep s (Step.vecDelete file.vectorIds)
      else s
    applyStep s1 (Step.fileDelete file.id)

/-- The message-grouping loop of
`MemoryService.createConversationDocuments` (the per-document text). -/
def convDocStep (acc : List (List Char) × List Char) (msg : MessageM) :
    List (List Char) × List Char :=
  let messageText := msg.role ++ str ": " ++ msg.content
  if 1000 < acc.2.length + messageText.length then
    ((if acc.2 ≠ [] then acc.1 ++ [acc.2] else acc.1), messageText)
  else
    (acc.1, acc.2 ++ str "\n\n" ++ messageText)

/-- The `pageContent` of each document `createConversationDocuments`
builds from the messages. -/
def convDocChunks (messages : List MessageM) : List (List Char) :=
  let acc := messages.foldl convDocStep ([], [])
  if acc.2 ≠ [] then acc.1 ++ [acc.2] else acc.1

/-- Path built by `NASService.buildUserPath(userId, category, filename)`
(the year/month segments are elided; no claim inspects them). -/
def buildUserPath (userId category filename : List Char) : List Char :=
  str "/users/" ++ userId ++ str "/" ++ category ++ str "/" ++ filename

/-- The writes of `MemoryService.saveConversation` (the variant the spec
describes) in source order.  The documents are added through
`langchain.addDocumentsToPinecone(documents)`, which passes NO ids: the
external PineconeStore stores them under ids it generates itself —
`assignedIds` (one per document).  The `NasFile` row is then created with
the synthesized list `vec_${conversationId}_${i}`.  `analysisSummary`,
`autoTags` and `fileChecksum` are the external analysis/checksum results,
`fileContentJson` the serialized conversation file.  The `Tag` and
`ConversationTag` upserts of the source touch tables outside the two
stores of the claims and are subsumed in the conversation/message
steps. -/
def saveConversationSteps (messages : List MessageM) (userId : List Char)
    (convId : List Char) (assignedIds : List (List Char)) (now : Int)
    (fileRecId : List Char) (analysisSummary : Option (List Char))
    (autoTags : List (List Char)) (fileChecksum : Option (List Char))
    (fileContentJson : List Char) : List Step :=
  let filename := str "conv_" ++ convId ++ str ".json"
  let filePath := buildUserPath userId (str "conversations") filename
  let documents := convDocChunks messages
  let fabricatedIds := (List.range documents.length).map
    (fun i => str "vec_" ++ convId ++ str "_" ++ Nat.toDigits 10 i)
  [Step.convCreate convId,
   Step.msgCreateMany,
   Step.blobWrite filePath fileContentJson,
   Step.vecUpsert assignedIds,
   Step.fileCreate
     ⟨fileRecId, userId, filePath, filename,
       buildUserPath userId (str "conversations") [], some (str "conversation"),
       some fileContentJson.length, none, fileChecksum, now, now, none, some now,
       some (str "Conversation"), analysisSummary, autoTags, some convId,
       fabricatedIds⟩,
   Step.convUpdate convId]

/-- The empty initial state of the stores. -/
def emptyStore : Store :=
  ⟨[], [], [], []⟩

/-- Uniqueness of the `(userId, filePath)` natural key, enforced by the
schema (`CREATE UNIQUE INDEX "NasFile_userId_filePath_key"`). -/
def uniqueFileKeys (files : List NasFileRec) : Prop :=
  files.Pairwise (fun a b => ¬(a.userId = b.userId ∧ a.filePath = b.filePath))

/-! ### Properties of `trim` -/

theorem infixOfPrefix {l₁ l₂ : List Char} (h : l₁ <+: l₂) : l₁ <:+: l₂ :=
  List.IsPrefix.isInfix h

theorem infixOfSuffix {l₁ l₂ : List Char} (h : l₁ <:+ l₂) : l₁ <:+: l₂ :=
  List.IsSuffix.isInfix h

theorem trim_length_le (l : List Char) : (trim l).length ≤ l.length :=
  le_trans (List.IsPrefix.length_le (List.rdropWhile_prefix isWs (trimLeft l)))
    (List.IsSuffix.length_le (List.dropWhile_suffix isWs))

theorem trim_infix_self (l : List Char) : trim l <:+: l :=
  List.IsInfix.trans (infixOfPrefix (List.rdropWhile_prefix isWs (trimLeft l)))
    (infixOfSuffix (List.dropWhile_suffix isWs))

theorem trim_eq_nil_iff {l : List Char} : trim l = [] ↔ ∀ x ∈ l, isWs x := by
  rw [trim, trimRight, List.rdropWhile_eq_nil_iff]
  constructor
  · intro h x hx
    rcases List.mem_append.1 ((List.takeWhile_append_dropWhile (p := isWs) (l := l)) ▸ hx) with
        h1 | h2
    · exact List.mem_takeWhile_imp h1
    · exact h x h2
  · intro h x hx
    exact h x (List.IsSuffix.subset (List.dropWhile_suffix isWs) hx)

theorem trim_head_not_ws (l : List Char) (h : trim l ≠ []) :
    isWs ((trim l).head h) = false := by
  have hp : trim l <+: trimLeft l := List.rdropWhile_prefix isWs (trimLeft l)
  have hne : trimLeft l ≠ [] := by
    intro e
    apply h
    rw [trim, e]
    rfl
  rw [List.IsPrefix.head hp h]
  exact List.head_dropWhile_not isWs l hne

theorem trim_last_not_ws (l : List Char) (h : trim l ≠ []) :
    isWs ((trim l).getLast h) = false := by
  have := List.rdropWhile_last_not isWs (trimLeft l) h
  exact Bool.not_eq_true _ ▸ (by simpa using this)

/-- A nonempty infix whose first character is not whitespace survives
`trimStart` of the surrounding string. -/
theorem infix_trimLeft {c : Char} {t l : List Char} (hc : isWs c = false)
    (h : (c :: t) <:+: l) : (c :: t) <:+: trimLeft l := by
  induction l with
  | nil =>
    have := List.IsInfix.length_le h
    simp at this
  | cons a l ih =>
    unfold trimLeft
    rw [List.dropWhile_cons]
    by_cases ha : isWs a
    · rw [if_pos ha]
      rcases h with ⟨s, u, hsu⟩
      cases s with
      | nil =>
        simp at hsu
        rw [hsu.1] at hc
        rw [ha] at hc
        cases hc
      | cons b s =>
        apply ih
        exact ⟨s, u, by simpa using congrArg List.tail hsu⟩
    · rw [if_neg ha]
      exact h

/-- A nonempty infix whose last character is not whitespace survives
`trimEnd` of the surrounding string. -/
theorem infix_trimRight {d : Char} {t l : List Char} (hd : isWs d = false)
    (h : (t ++ [d]) <:+: l) : (t ++ [d]) <:+: trimRight l := by
  have h1 : (d :: t.reverse) <:+: l.reverse := by
    have := List.reverse_infix.2 h
    simpa using this
  have h2 := infix_trimLeft hd h1
  rw [trimRight, List.rdropWhile]
  rw [← List.reverse_infix]
  simpa using h2

/-- A nonempty infix with non-whitespace endpoints survives `trim`. -/
theorem infix_trim_of_infix {u l : List Char} (hu : u ≠ [])
    (hhead : isWs (u.head hu) = false) (hlast : isWs (u.getLast hu) = false)
    (h : u <:+: l) : u <:+: trim l := by
  have e1 : u.head hu :: u.tail = u := List.head_cons_tail u hu
  have e2 : u.dropLast ++ [u.getLast hu] = u := List.dropLast_append_getLast hu
  have step1 : u <:+: trimLeft l := by
    rw [← e1]
    exact infix_trimLeft hhead (by rw [e1]; exact h)
  have step2 : (u.dropLast ++ [u.getLast hu]) <:+: trimRight (trimLeft l) :=
    infix_trimRight hlast (by rw [e2]; exact step1)
  rw [trim]
  rw [e2] at step2
  exact step2

/-! ### Chunker invariants -/

theorem chunkOk_of_ccOk {S : List (List Char)} {max : Nat} {cc : List Char}
    (hcc : CCOk S max cc) : ChunkOk S max (trim cc) := by
  rcases hcc with rfl | hlen | hmem
  · left
    simp [trim, trimLeft, trimRight, List.rdropWhile]
  · exact Or.inl (le_trans (trim_length_le cc) hlen)
  · by_cases hb : cc.length ≤ max + 2
    · exact Or.inl (le_trans (trim_length_le cc) hb)
    · exact Or.inr ⟨cc, hmem, lt_of_le_of_lt (Nat.le_add_right max 2) (Nat.lt_of_not_le hb),
        rfl⟩

theorem foldl_chunkOk (max : Nat) (S : List (List Char)) :
    ∀ (ss : List (List Char)) (chunks : List (List Char)) (cc : List Char),
      (∀ s ∈ ss, s ∈ S) →
      (∀ c ∈ chunks, ChunkOk S max c) → CCOk S max cc →
      (∀ c ∈ (ss.foldl (chunkStep max) (chunks, cc)).1, ChunkOk S max c) ∧
        CCOk S max (ss.foldl (chunkStep max) (chunks, cc)).2 := by
  intro ss
  induction ss with
  | nil =>
    intro chunks cc _ hch hcc
    exact ⟨hch, hcc⟩
  | cons s rest ih =>
    intro chunks cc hsub hch hcc
    rw [List.foldl_cons]
    have hsS : s ∈ S := hsub s (List.mem_cons_self s rest)
    have hrest : ∀ x ∈ rest, x ∈ S := fun x hx => hsub x (List.mem_cons_of_mem s hx)
    by_cases hcond : max < cc.length + s.length ∧ cc ≠ []
    · have hstep : chunkStep max (chunks, cc) s = (chunks ++ [trim cc], s) := by
        simp only [chunkStep]
        rw [if_pos hcond]
      rw [hstep]
      apply ih _ _ hrest
      · intro c hc
        rcases List.mem_append.1 hc with hl | hr
        · exact hch c hl
        · rw [List.mem_singleton.1 hr]
          exact chunkOk_of_ccOk hcc
      · exact Or.inr (Or.inr hsS)
    · have hstep : chunkStep max (chunks, cc) s =
          (chunks, cc ++ (if cc ≠ [] then str ". " else []) ++ s) := by
        simp only [chunkStep]
        rw [if_neg hcond]
      rw [hstep]
      apply ih _ _ hrest hch
      by_cases hccnil : cc = []
      · subst hccnil
        have h0 : (if ([] : List Char) ≠ [] then str ". " else ([] : List Char)) = [] := by
          simp
        rw [h0]
        exact Or.inr (Or.inr hsS)
      · have hlen : cc.length + s.length ≤ max := by
          rcases Decidable.not_and_iff_or_not.1 hcond with h | h
          · exact Nat.le_of_not_lt h
          · exact absurd hccnil (by simpa using h)
        rw [if_pos hccnil]
        refine Or.inr (Or.inl ?_)
        have h2 : (str ". ").length = 2 := rfl
        simp only [List.length_append, h2]
        omega

theorem chunkContent_bound (content : List Char) (max : Nat) :
    ∀ c ∈ chunkContent content max, ChunkOk (splitSentences content) max c := by
  intro c hc
  unfold chunkContent at hc
  have hfold := foldl_chunkOk max (splitSentences content) (splitSentences content) [] []
    (fun _ h => h) (by intro c hc; cases hc) (Or.inl rfl)
  set acc := (splitSentences content).foldl (chunkStep max) ([], []) with hacc
  by_cases hne : trim acc.2 ≠ []
  · rw [if_pos hne] at hc
    rcases List.mem_append.1 hc with hl | hr
    · exact hfold.1 c hl
    · rw [List.mem_singleton.1 hr]
      exact chunkOk_of_ccOk hfold.2
  · rw [if_neg hne] at hc
    exact hfold.1 c hc

theorem chunkContent_eq_finish (content : List Char) (max : Nat) :
    chunkContent content max =
      chunkFinish ((splitSentences content).foldl (chunkStep max) ([], [])) := rfl

theorem foldl_chunks_mono (max : Nat) :
    ∀ (ss : List (List Char)) (chunks : List (List Char)) (cc c : List Char),
      c ∈ chunks → c ∈ (ss.foldl (chunkStep max) (chunks, cc)).1 := by
  intro ss
  induction ss with
  | nil => exact fun chunks cc c hc => hc
  | cons s rest ih =>
    intro chunks cc c hc
    rw [List.foldl_cons]
    by_cases hcond : max < cc.length + s.length ∧ cc ≠ []
    · have hstep : chunkStep max (chunks, cc) s = (chunks ++ [trim cc], s) := by
        simp only [chunkStep]
        rw [if_pos hcond]
      rw [hstep]
      exact ih _ _ _ (List.mem_append_left _ hc)
    · have hstep : chunkStep max (chunks, cc) s =
          (chunks, cc ++ (if cc ≠ [] then str ". " else []) ++ s) := by
        simp only [chunkStep]
        rw [if_neg hcond]
      rw [hstep]
      exact ih _ _ _ hc

theorem mem_chunkFinish_left {acc : List (List Char) × List Char} {c : List Char}
    (hc : c ∈ acc.1) : c ∈ chunkFinish acc := by
  unfold chunkFinish
  split
  · exact List.mem_append_left _ hc
  · exact hc

/-- A non-whitespace fragment sitting inside `currentChunk` eventually lands
inside an emitted chunk. -/
theorem foldl_tracked (max : Nat) (u : List Char) (hu : u ≠ [])
    (hhead : isWs (u.head hu) = false) (hlast : isWs (u.getLast hu) = false) :
    ∀ (ss : List (List Char)) (chunks : List (List Char)) (cc : List Char),
      u <:+: cc →
      ∃ ch ∈ chunkFinish (ss.foldl (chunkStep max) (chunks, cc)), u <:+: ch := by
  intro ss
  induction ss with
  | nil =>
    intro chunks cc hcc
    have hne : trim cc ≠ [] := by
      intro he
      have hall := trim_eq_nil_iff.1 he
      have hmem : u.head hu ∈ cc :=
        List.IsInfix.subset hcc (List.head_mem hu)
      rw [hall _ hmem] at hhead
      cases hhead
    refine ⟨trim cc, ?_, infix_trim_of_infix hu hhead hlast hcc⟩
    unfold chunkFinish
    rw [List.foldl_nil, if_pos hne]
    exact List.mem_append_right _ (List.mem_singleton_self _)
  | cons s rest ih =>
    intro chunks cc hcc
    rw [List.foldl_cons]
    by_cases hcond : max < cc.length + s.length ∧ cc ≠ []
    · have hstep : chunkStep max (chunks, cc) s = (chunks ++ [trim cc], s) := by
        simp only [chunkStep]
        rw [if_pos hcond]
      rw [hstep]
      refine ⟨trim cc, ?_, infix_trim_of_infix hu hhead hlast hcc⟩
      exact mem_chunkFinish_left
        (foldl_chunks_mono max rest _ _ _
          (List.mem_append_right _ (List.mem_singleton_self _)))
    · have hstep : chunkStep max (chunks, cc) s =
          (chunks, cc ++ (if cc ≠ [] then str ". " else []) ++ s) := by
        simp only [chunkStep]
        rw [if_neg hcond]
      rw [hstep]
      refine ih _ _ (List.IsInfix.trans hcc (infixOfPrefix ?_))
      rw [List.append_assoc]
      exact List.prefix_append cc _

/-- Every sentence with non-blank content ends up (in trimmed form) inside
some emitted chunk. -/
theorem foldl_noDrop (max : Nat) :
    ∀ (ss : List (List Char)) (chunks : List (List Char)) (cc : List Char),
      ∀ s ∈ ss, trim s ≠ [] →
      ∃ ch ∈ chunkFinish (ss.foldl (chunkStep max) (chunks, cc)), trim s <:+: ch := by
  intro ss
  induction ss with
  | nil =>
    intro chunks cc s hs
    cases hs
  | cons s0 rest ih =>
    intro chunks cc s hs hts
    rw [List.foldl_cons]
    rcases List.mem_cons.1 hs with rfl | hmem
    · have hhead := trim_head_not_ws s hts
      have hlast := trim_last_not_ws s hts
      by_cases hcond : max < cc.length + s.length ∧ cc ≠ []
      · have hstep : chunkStep max (chunks, cc) s = (chunks ++ [trim cc], s) := by
          simp only [chunkStep]
          rw [if_pos hcond]
        rw [hstep]
        exact foldl_tracked max (trim s) hts hhead hlast rest _ _ (trim_infix_self s)
      · have hstep : chunkStep max (chunks, cc) s =
            (chunks, cc ++ (if cc ≠ [] then str ". " else []) ++ s) := by
          simp only [chunkStep]
          rw [if_neg hcond]
        rw [hstep]
        apply foldl_tracked max (trim s) hts hhead hlast rest
        exact List.IsInfix.trans (trim_infix_self s) (infixOfSuffix (List.suffix_append _ _))
    · by_cases hcond : max < cc.length + s0.length ∧ cc ≠ []
      · have hstep : chunkStep max (chunks, cc) s0 = (chunks ++ [trim cc], s0) := by
          simp only [chunkStep]
          rw [if_pos hcond]
        rw [hstep]
        exact ih _ _ s hmem hts
      · have hstep : chunkStep max (chunks, cc) s0 =
            (chunks, cc ++ (if cc ≠ [] then str ". " else []) ++ s0) := by
          simp only [chunkStep]
          rw [if_neg hcond]
        rw [hstep]
        exact ih _ _ s hmem hts

/-! ## Claim C6 -/

/-- C6 (amended): every chunk emitted by `chunkContent` either has length
at most `maxChunkSize + 2` — the source appends the two-character `'. '`
separator after its size check, so a chunk of several sentences can
overshoot the claimed bound by up to 2 — or is the trimmed form of a
single input sentence that alone exceeds `maxChunkSize`; and no sentence
is dropped: every sentence with non-blank content appears, in trimmed
form, as a contiguous substring of some emitted chunk. -/
theorem c6_chunkContent_amended (content : List Char) (max : Nat) :
    (∀ c ∈ chunkContent content max,
      c.length ≤ max + 2 ∨
        ∃ s ∈ splitSentences content, max < s.length ∧ c = trim s) ∧
    (∀ s ∈ splitSentences content, trim s ≠ [] →
      ∃ ch ∈ chunkContent content max, trim s <:+: ch) := by
  constructor
  · exact chunkContent_bound content max
  · intro s hs hts
    rw [chunkContent_eq_finish]
    exact foldl_noDrop max (splitSentences content) [] [] s hs hts

set_option maxRecDepth 400000

/-- C6 counterexample: on the 1001-character input
`'a'*500 ++ "." ++ 'b'*500` with the default `maxChunkSize = 1000`,
`chunkContent` emits a chunk of 1002 characters even though every
sentence of the input is at most 1000 characters long — the claimed bound
(`≤ 1000` except for a single oversized sentence) is violated. -/
theorem c6_counterexample :
    ∃ c ∈ chunkContent (List.replicate 500 'a' ++ '.' :: List.replicate 500 'b') 1000,
      1000 < c.length ∧
      ∀ s ∈ splitSentences (List.replicate 500 'a' ++ '.' :: List.replicate 500 'b'),
        s.length ≤ 1000 := by
  decide

/-- Witness instantiating `c6_chunkContent_amended` on a concrete input. -/
theorem c6_chunkContent_amended_witness :
    ((str "Hi there.  Bye").length ≤ 1000 + 2 ∨
      ∃ s ∈ splitSentences (str "Hi there. Bye"),
        1000 < s.length ∧ str "Hi there.  Bye" = trim s) ∧
    (∃ ch ∈ chunkContent (str "Hi there. Bye") 1000, trim (str " Bye") <:+: ch) :=
  ⟨(c6_chunkContent_amended (str "Hi there. Bye") 1000).1 (str "Hi there.  Bye")
      (by decide),
   (c6_chunkContent_amended (str "Hi there. Bye") 1000).2 (str " Bye") (by decide)
      (by decide)⟩

/-! ## Claim C3 -/

/-- C3 (amended): `parseWithPatterns` executes its checks in the order
quoted tag, semantic-indicator phrase, explicit date, relative date,
file-type keyword, aggregation keyword — not the claimed order with the
date patterns first.  In particular a query that matches an explicit-date
pattern and contains a semantic-indicator phrase (and has no quoted tag)
is classified `semantic` with the raw text as query; the date pattern
never fires for it. -/
theorem c3_parseWithPatterns_amended (query d : List Char)
    (htag : tagCapture query = none)
    (hsem : semanticIndicators.any (fun indicator => containsSub indicator (lower query)) =
      true)
    (hdate : explicitDateCapture query = some d) :
    parseWithPatterns query = some (semanticIntent query) := by
  unfold parseWithPatterns
  rw [htag]
  simp [hsem]

/-- C3 counterexample: the query `"from 2024-01-05 about databases"`
matches the explicit-date pattern (capturing `2024-01-05`) and contains
the semantic indicator `about`; the claim says the date pattern is checked
first and a structured intent with a `dateRange` filter results, but
`parseWithPatterns` returns the semantic intent with no filters. -/
theorem c3_counterexample :
    explicitDateCapture (str "from 2024-01-05 about databases") = some (str "2024-01-05") ∧
    containsSub (str "about") (lower (str "from 2024-01-05 about databases")) = true ∧
    parseWithPatterns (str "from 2024-01-05 about databases") =
      some (semanticIntent (str "from 2024-01-05 about databases")) ∧
    (semanticIntent (str "from 2024-01-05 about databases")).type = IntentType.semantic ∧
    (semanticIntent (str "from 2024-01-05 about databases")).filters = none := by
  decide

/-- Witness instantiating `c3_parseWithPatterns_amended` on a concrete
query matching both patterns. -/
theorem c3_parseWithPatterns_amended_witness :
    tagCapture (str "meeting from 2024-01-05 about Lean") = none ∧
    semanticIndicators.any
      (fun indicator =>
        containsSub indicator (lower (str "meeting from 2024-01-05 about Lean"))) = true ∧
    explicitDateCapture (str "meeting from 2024-01-05 about Lean") =
      some (str "2024-01-05") ∧
    parseWithPatterns (str "meeting from 2024-01-05 about Lean") =
      some (semanticIntent (str "meeting from 2024-01-05 about Lean")) :=
  ⟨by decide, by decide, by decide,
   c3_parseWithPatterns_amended (str "meeting from 2024-01-05 about Lean")
     (str "2024-01-05") (by decide) (by decide) (by decide)⟩

/-! ## Claim C4 -/

/-- C4: for every query on which no deterministic pattern matches and
whose model-based extraction fails (the `Except.error` outcome covers a
thrown or timed-out call, a missing function call and malformed or
schema-invalid output), `parseQuery` returns
`{ type: 'semantic', query: <raw text> }`; the embedding is a total
function, so no error reaches the caller. -/
theorem c4_parseQuery_fail_open (query : List Char) (e : Unit)
    (hpat : parseWithPatterns query = none) :
    parseQuery query (Except.error e) = semanticIntent query := by
  unfold parseQuery
  rw [hpat]
  rfl

/-- Witness instantiating `c4_parseQuery_fail_open`. -/
theorem c4_parseQuery_fail_open_witness :
    parseWithPatterns (str "hello world") = none ∧
    parseQuery (str "hello world") (Except.error ()) = semanticIntent (str "hello world") :=
  ⟨by decide, c4_parseQuery_fail_open (str "hello world") () (by decide)⟩

/-! ## Claim C10 -/

/-- C10: in `evaluateLengthRule` a `minMessages` or `maxMessages` bound of
`0` is falsy in the `conditions.minMessages && ...` guards, so it behaves
exactly like an omitted bound; a rule with only `maxMessages = 0` fires
for every message count. -/
theorem c10_evaluateLengthRule_zero_bound (mn : Option Int)
    (kw : Option (List (List Char))) (mt iv st : Option (List Char))
    (dw : Option (List Int)) (messages : List MessageM) :
    (evaluateLengthRule ⟨mn, some 0, kw, mt, iv, st, dw⟩ messages =
      evaluateLengthRule ⟨mn, none, kw, mt, iv, st, dw⟩ messages) ∧
    (∀ mx : Option Int,
      evaluateLengthRule ⟨some 0, mx, kw, mt, iv, st, dw⟩ messages =
        evaluateLengthRule ⟨none, mx, kw, mt, iv, st, dw⟩ messages) ∧
    evaluateLengthRule ⟨none, some 0, kw, mt, iv, st, dw⟩ messages = true := by
  refine ⟨?_, ?_, ?_⟩ <;>
    simp [evaluateLengthRule, jsTruthyNum]

/-! ## Claim C5 -/

/-- C5 (amended): an interval string that does not parse as
`<integer><unit>` on an active time rule throws inside `evaluateTriggers`
(when a previous time trigger exists, so the interval is actually parsed);
there is no catch, so the error aborts the whole batch — whatever active
rules follow the failing one, the call propagates the interval error to
the caller and evaluates none of them. -/
theorem evalTriggersLoop_cons (messages : List MessageM) (env : TriggerEnv)
    (convId : List Char) (rule : MemoryRuleM) (rest : List MemoryRuleM)
    (acc : List TriggerAction × List TriggerRecord) :
    evalTriggersLoop messages env convId (rule :: rest) acc =
      (evaluateRule rule messages env).bind (fun fired =>
        if fired then
          evalTriggersLoop messages env convId rest
            (acc.1 ++ parseActions rule.actions,
             acc.2 ++ [⟨rule.ruleType, convId, rule.id⟩])
        else evalTriggersLoop messages env convId rest acc) := rfl

theorem c5_evaluateTriggers_amended (rest : List MemoryRuleM)
    (conds : RuleConditions) (acts : RuleActions) (rid userId convId : List Char)
    (messages : List MessageM) (env : TriggerEnv) (iv err : List Char) (t : Nat)
    (hiv : conds.interval = some iv) (hivne : iv ≠ [])
    (hparse : parseInterval iv = Except.error err)
    (hlast : env.lastTimeTriggerAt = some t) :
    evaluateTriggers (⟨rid, userId, str "time", conds, acts, true⟩ :: rest) convId
      messages userId env = Except.error err := by
  have hrule : evaluateRule ⟨rid, userId, str "time", conds, acts, true⟩ messages env =
      Except.error err := by
    have h0 : evaluateRule ⟨rid, userId, str "time", conds, acts, true⟩ messages env =
        evaluateTimeRule conds env := rfl
    rw [h0]
    unfold evaluateTimeRule
    rw [hiv, hlast]
    simp [jsTruthyStr, hivne, hparse, Except.bind, Bind.bind]
  have hfilter : List.filter
      (fun r : MemoryRuleM => r.userId == userId && r.isActive)
      (⟨rid, userId, str "time", conds, acts, true⟩ :: rest) =
      ⟨rid, userId, str "time", conds, acts, true⟩ ::
        List.filter (fun r : MemoryRuleM => r.userId == userId && r.isActive) rest := by
    simp [List.filter_cons]
  unfold evaluateTriggers
  rw [hfilter, evalTriggersLoop_cons, hrule]
  rfl

/-- C5 counterexample: with a prior time trigger on record, a time rule
whose interval is `"abc"` makes `evaluateTriggers` return the thrown
`Invalid interval format` error — it does not skip the rule: a length
rule later in the same batch, which by itself fires and yields a
`generate_summary` action, is never evaluated and the caller gets the
error instead of its actions. -/
theorem c5_counterexample :
    evaluateTriggers
      [⟨str "r1", str "u", str "time",
         ⟨none, none, none, none, some (str "abc"), none, none⟩,
         ⟨false, none, false, none, false, none, none, false, none, none, false, none⟩,
         true⟩,
       ⟨str "r2", str "u", str "length",
         ⟨some 1, none, none, none, none, none, none⟩,
         ⟨true, none, false, none, false, none, none, false, none, none, false, none⟩,
         true⟩]
      (str "c1") [⟨str "user", str "hi"⟩] (str "u") ⟨some 0, 1000000, 1⟩ =
      Except.error (str "Invalid interval format: abc") ∧
    evaluateTriggers
      [⟨str "r2", str "u", str "length",
         ⟨some 1, none, none, none, none, none, none⟩,
         ⟨true, none, false, none, false, none, none, false, none, none, false, none⟩,
         true⟩]
      (str "c1") [⟨str "user", str "hi"⟩] (str "u") ⟨some 0, 1000000, 1⟩ =
      Except.ok ([⟨str "generate_summary", ActionParams.summary (str "brief")⟩],
        [⟨str "length", str "c1", str "r2"⟩]) := by
  exact ⟨rfl, rfl⟩

/-- Witness instantiating `c5_evaluateTriggers_amended`. -/
theorem c5_evaluateTriggers_amended_witness :
    (⟨none, none, none, none, some (str "abc"), none, none⟩ :
        RuleConditions).interval = some (str "abc") ∧
    str "abc" ≠ [] ∧
    parseInterval (str "abc") = Except.error (str "Invalid interval format: abc") ∧
    (⟨some 0, 1000000, 1⟩ : TriggerEnv).lastTimeTriggerAt = some 0 ∧
    evaluateTriggers
      [⟨str "r1", str "u", str "time",
         ⟨none, none, none, none, some (str "abc"), none, none⟩,
         ⟨false, none, false, none, false, none, none, false, none, none, false, none⟩,
         true⟩]
      (str "c1") [⟨str "user", str "hi"⟩] (str "u") ⟨some 0, 1000000, 1⟩ =
      Except.error (str "Invalid interval format: abc") :=
  ⟨rfl, by decide, rfl, rfl,
   c5_evaluateTriggers_amended []
     ⟨none, none, none, none, some (str "abc"), none, none⟩
     ⟨false, none, false, none, false, none, none, false, none, none, false, none⟩
     (str "r1") (str "u") (str "c1") [⟨str "user", str "hi"⟩]
     ⟨some 0, 1000000, 1⟩ (str "abc") (str "Invalid interval format: abc") 0
     rfl (by decide) rfl rfl⟩

/-! ### JavaScript `Map` lemmas -/

theorem mapGet_mapSet {β : Type} (m : List (List Char × β)) (k k' : List Char) (v : β) :
    mapGet (mapSet m k v) k' = if k' = k then some v else mapGet m k' := by
  unfold mapSet mapGet
  by_cases hfind : (List.find? (fun p => p.1 == k) m).isSome
  · rw [if_pos hfind, List.find?_map]
    have hpred : ((fun p : List Char × β => p.1 == k') ∘
        fun p : List Char × β => if p.1 == k then (k, v) else p) =
        fun p : List Char × β => p.1 == k' := by
      funext p
      by_cases hp : p.1 = k
      · simp [hp]
      · simp [hp]
    rw [hpred]
    by_cases hk : k' = k
    · subst hk
      obtain ⟨q, hq⟩ := Option.isSome_iff_exists.1 hfind
      rw [hq]
      have hq1 := List.find?_some hq
      simp only [] at hq1
      have hq1e : q.1 = k' := eq_of_beq hq1
      simp [Option.map, hq1e]
    · cases hfk : List.find? (fun p : List Char × β => p.1 == k') m with
      | none => simp [if_neg hk]
      | some q =>
        have hq1 : q.1 = k' := by
          have h1 := List.find?_some hfk
          simp only [] at h1
          exact eq_of_beq h1
        have hqk : ¬(q.1 = k) := by
          rw [hq1]
          exact hk
        simp [if_neg hk, hqk]
  · rw [if_neg hfind, List.find?_append]
    by_cases hk : k' = k
    · subst hk
      have hnone : List.find? (fun p : List Char × β => p.1 == k') m = none := by
        cases h : List.find? (fun p : List Char × β => p.1 == k') m with
        | none => rfl
        | some q => exact absurd (by rw [h]; rfl) hfind
      rw [hnone]
      simp
    · cases hfk : List.find? (fun p : List Char × β => p.1 == k') m with
      | none =>
        have hkv : ((k, v).1 == k') = false := beq_eq_false_iff_ne.2 (Ne.symm hk)
        simp [if_neg hk, List.find?, hkv]
      | some q =>
        simp [if_neg hk]

theorem mem_mapSet {β : Type} {m : List (List Char × β)} {k : List Char} {v : β}
    {x : List Char × β} (hx : x ∈ mapSet m k v) : x ∈ m ∨ x.1 = k := by
  unfold mapSet at hx
  split at hx
  · rcases List.mem_map.1 hx with ⟨p, hp, hpx⟩
    by_cases hpk : p.1 == k
    · rw [if_pos hpk] at hpx
      right
      rw [← hpx]
    · rw [if_neg hpk] at hpx
      left
      rw [← hpx]
      exact hp
  · rcases List.mem_append.1 hx with h | h
    · exact Or.inl h
    · right
      rw [List.mem_singleton.1 h]

/-! ### Facts about the hybrid score folds -/

theorem hybridSemFold_get_not_mem (n : Nat) :
    ∀ (l : List (List Char)) (k : Nat) (m0 : List (List Char × ℚ)) (p : List Char),
      p ∉ l →
      mapGet ((List.enumFrom k l).foldl (hybridSemStep n) m0) p = mapGet m0 p := by
  intro l
  induction l with
  | nil => intro k m0 p _; rfl
  | cons x xs ih =>
    intro k m0 p hp
    have hpx : p ≠ x := fun h => hp (h ▸ List.mem_cons_self x xs)
    have hxs : p ∉ xs := fun h => hp (List.mem_cons_of_mem x h)
    show mapGet ((List.enumFrom (k + 1) xs).foldl (hybridSemStep n)
      (hybridSemStep n m0 (k, x))) p = mapGet m0 p
    rw [ih (k + 1) _ p hxs]
    unfold hybridSemStep
    rw [mapGet_mapSet]
    exact if_neg hpx

theorem hybridSemFold_get_mem (n : Nat) :
    ∀ (l : List (List Char)) (k : Nat) (m0 : List (List Char × ℚ)) (p : List Char)
      (j : Nat), l.Nodup → l.get? j = some p →
      mapGet ((List.enumFrom k l).foldl (hybridSemStep n) m0) p =
        some ((((n : ℚ) - ((k + j : Nat) : ℚ)) / (n : ℚ)) * (3 / 2)) := by
  intro l
  induction l with
  | nil => intro k m0 p j _ hj; cases hj
  | cons x xs ih =>
    intro k m0 p j hnd hj
    rcases List.nodup_cons.1 hnd with ⟨hx, hnd'⟩
    show mapGet ((List.enumFrom (k + 1) xs).foldl (hybridSemStep n)
      (hybridSemStep n m0 (k, x))) p = _
    cases j with
    | zero =>
      have hpx : x = p := by
        simpa using hj
      subst hpx
      rw [hybridSemFold_get_not_mem n xs (k + 1) _ x hx]
      unfold hybridSemStep
      rw [mapGet_mapSet, if_pos rfl]
      norm_num
    | succ j =>
      have hj' : xs.get? j = some p := by
        simpa using hj
      rw [ih (k + 1) _ p j hnd' hj']
      have : k + 1 + j = k + (j + 1) := by omega
      rw [this]

theorem hybridStructFold_get_not_mem (m1 : Nat) :
    ∀ (l : List (List Char)) (k : Nat) (m0 : List (List Char × ℚ)) (p : List Char),
      p ∉ l →
      mapGet ((List.enumFrom k l).foldl (hybridStructStep m1) m0) p = mapGet m0 p := by
  intro l
  induction l with
  | nil => intro k m0 p _; rfl
  | cons x xs ih =>
    intro k m0 p hp
    have hpx : p ≠ x := fun h => hp (h ▸ List.mem_cons_self x xs)
    have hxs : p ∉ xs := fun h => hp (List.mem_cons_of_mem x h)
    show mapGet ((List.enumFrom (k + 1) xs).foldl (hybridStructStep m1)
      (hybridStructStep m1 m0 (k, x))) p = mapGet m0 p
    rw [ih (k + 1) _ p hxs]
    unfold hybridStructStep
    rw [mapGet_mapSet]
    exact if_neg hpx

theorem hybridStructFold_get_mem (m1 : Nat) :
    ∀ (l : List (List Char)) (k : Nat) (m0 : List (List Char × ℚ)) (p : List Char)
      (j : Nat), l.Nodup → l.get? j = some p →
      mapGet ((List.enumFrom k l).foldl (hybridStructStep m1) m0) p =
        some ((mapGet m0 p).getD 0 +
          (((m1 : ℚ) - ((k + j : Nat) : ℚ)) / (m1 : ℚ)) * (1 / 2)) := by
  intro l
  induction l with
  | nil => intro k m0 p j _ hj; cases hj
  | cons x xs ih =>
    intro k m0 p j hnd hj
    rcases List.nodup_cons.1 hnd with ⟨hx, hnd'⟩
    show mapGet ((List.enumFrom (k + 1) xs).foldl (hybridStructStep m1)
      (hybridStructStep m1 m0 (k, x))) p = _
    cases j with
    | zero =>
      have hpx : x = p := by
        simpa using hj
      subst hpx
      rw [hybridStructFold_get_not_mem m1 xs (k + 1) _ x hx]
      unfold hybridStructStep
      rw [mapGet_mapSet, if_pos rfl]
      norm_num
    | succ j =>
      have hj' : xs.get? j = some p := by
        simpa using hj
      have hpx : p ≠ x := by
        intro h
        exact hx (h ▸ List.get?_mem hj')
      rw [ih (k + 1) _ p j hnd' hj']
      unfold hybridStructStep
      rw [mapGet_mapSet, if_neg hpx]
      have : k + 1 + j = k + (j + 1) := by omega
      rw [this]

/-! ### Sorting lemmas -/

theorem mem_insertDescBy {α β : Type} [LinearOrder β] (key : α → β) (x a : α) :
    ∀ l : List α, a ∈ insertDescBy key x l ↔ a = x ∨ a ∈ l := by
  intro l
  induction l with
  | nil => simp [insertDescBy]
  | cons y ys ih =>
    unfold insertDescBy
    by_cases h : key y ≤ key x
    · rw [if_pos h]
      simp
    · rw [if_neg h]
      simp only [List.mem_cons, ih]
      tauto

theorem mem_sortDescBy {α β : Type} [LinearOrder β] (key : α → β) (a : α) :
    ∀ l : List α, a ∈ sortDescBy key l ↔ a ∈ l := by
  intro l
  induction l with
  | nil => simp [sortDescBy]
  | cons y ys ih =>
    show a ∈ insertDescBy key y (sortDescBy key ys) ↔ _
    rw [mem_insertDescBy, ih]
    simp

theorem sorted_insertDescBy {α β : Type} [LinearOrder β] (key : α → β) (x : α)
    {l : List α} (hl : l.Pairwise (fun a b => key b ≤ key a)) :
    (insertDescBy key x l).Pairwise (fun a b => key b ≤ key a) := by
  induction l with
  | nil => simp [insertDescBy]
  | cons y ys ih =>
    rcases List.pairwise_cons.1 hl with ⟨hy, hys⟩
    unfold insertDescBy
    by_cases h : key y ≤ key x
    · rw [if_pos h]
      refine List.pairwise_cons.2 ⟨?_, hl⟩
      intro b hb
      rcases List.mem_cons.1 hb with rfl | hb
      · exact h
      · exact le_trans (hy b hb) h
    · rw [if_neg h]
      refine List.pairwise_cons.2 ⟨?_, ih hys⟩
      intro b hb
      rcases (mem_insertDescBy key x b ys).1 hb with rfl | hb
      · exact le_of_not_le h
      · exact hy b hb

theorem sorted_sortDescBy {α β : Type} [LinearOrder β] (key : α → β) (l : List α) :
    (sortDescBy key l).Pairwise (fun a b => key b ≤ key a) := by
  induction l with
  | nil => exact List.Pairwise.nil
  | cons y ys ih => exact sorted_insertDescBy key y ih

/-! ## Claim C2 -/

/-- C2 (amended): the merged hybrid score is rank-based, not
similarity-based.  With `n` semantic paths and `m` structured paths
(each list without duplicates, as produced by the two legs), the file at
semantic rank `i` receives `(n-i)/n * 1.5`; the file at structured rank
`j` additionally receives `(m-j)/m * 0.5`; a file in both lists gets the
sum, a file in neither is absent; the merged entries are sorted
descending by this score and truncated to `limit`.  The semantic
similarity score never enters the merged score — only the rank within
the semantic leg does — and a structured-only file receives `0.5`
exactly when it is the first structured result. -/
theorem c2_hybridMerge_amended (sem struct : List (List Char)) (p : List Char)
    (limit : Nat) (hsem : sem.Nodup) (hstruct : struct.Nodup) :
    (∀ i, sem.get? i = some p → ∀ j, struct.get? j = some p →
      mapGet (hybridScores sem struct) p =
        some ((((sem.length : ℚ) - (i : ℚ)) / (sem.length : ℚ)) * (3 / 2) +
          (((struct.length : ℚ) - (j : ℚ)) / (struct.length : ℚ)) * (1 / 2))) ∧
    (∀ i, sem.get? i = some p → p ∉ struct →
      mapGet (hybridScores sem struct) p =
        some ((((sem.length : ℚ) - (i : ℚ)) / (sem.length : ℚ)) * (3 / 2))) ∧
    (p ∉ sem → ∀ j, struct.get? j = some p →
      mapGet (hybridScores sem struct) p =
        some ((((struct.length : ℚ) - (j : ℚ)) / (struct.length : ℚ)) * (1 / 2))) ∧
    (p ∉ sem → p ∉ struct → mapGet (hybridScores sem struct) p = none) ∧
    (sortDescBy Prod.snd (hybridScores sem struct)).Pairwise
      (fun a b => b.2 ≤ a.2) ∧
    (hybridMerge sem struct limit).length ≤ limit := by
  have hscores : hybridScores sem struct =
      (List.enumFrom 0 struct).foldl (hybridStructStep struct.length)
        ((List.enumFrom 0 sem).foldl (hybridSemStep sem.length) []) := rfl
  refine ⟨?_, ?_, ?_, ?_, ?_, ?_⟩
  · intro i hi j hj
    rw [hscores,
      hybridStructFold_get_mem struct.length struct 0 _ p j hstruct hj,
      hybridSemFold_get_mem sem.length sem 0 [] p i hsem hi]
    simp
  · intro i hi hns
    rw [hscores, hybridStructFold_get_not_mem struct.length struct 0 _ p hns,
      hybridSemFold_get_mem sem.length sem 0 [] p i hsem hi]
    simp
  · intro hns j hj
    rw [hscores,
      hybridStructFold_get_mem struct.length struct 0 _ p j hstruct hj,
      hybridSemFold_get_not_mem sem.length sem 0 [] p hns]
    simp [mapGet]
  · intro hns hnt
    rw [hscores, hybridStructFold_get_not_mem struct.length struct 0 _ p hnt,
      hybridSemFold_get_not_mem sem.length sem 0 [] p hns]
    rfl
  · exact sorted_sortDescBy Prod.snd (hybridScores sem struct)
  · unfold hybridMerge
    rw [List.length_map]
    exact List.length_take_le _ _

/-- C2 counterexample: for user `u` the Vector Index holds the file `a`
with similarity score `0.8` (ranked first) and `b` with `0.3`; the
structured leg returns `a` then `c`.  The claim predicts merged scores
`a ↦ 0.8·1.5 + 0.5 = 1.7` and `c ↦ 0.5`; the code computes the
rank-based `a ↦ 2` and `c ↦ 1/4`. -/
theorem c2_counterexample :
    semanticSearch
      [⟨str "a", str "u", str "conversation", some (4 / 5)⟩,
       ⟨str "b", str "u", str "conversation", some (3 / 10)⟩]
      (str "u") ⟨none, none, none, none, none⟩ = [str "a", str "b"] ∧
    mapGet (hybridScores [str "a", str "b"] [str "a", str "c"]) (str "a") = some 2 ∧
    (2 : ℚ) ≠ (4 / 5) * (3 / 2) + 1 / 2 ∧
    mapGet (hybridScores [str "a", str "b"] [str "a", str "c"]) (str "c") =
      some (1 / 4) ∧
    ((1 : ℚ) / 4) ≠ 1 / 2 ∧
    hybridMerge [str "a", str "b"] [str "a", str "c"] 10 =
      [str "a", str "b", str "c"] := by
  have hva : max (0:ℚ) (4/5) = 4/5 := by norm_num
  have hvb : max (0:ℚ) (3/10) = 3/10 := by norm_num
  have hc : ((3:ℚ)/10 ≤ 4/5) := by norm_num
  have hc2 : ((3:ℚ)/4 ≤ 2) := by norm_num
  have hc3 : ((1:ℚ)/4 ≤ 3/4) := by norm_num
  have bab : (str "a" == str "b") = false := by decide
  have bba : (str "b" == str "a") = false := by decide
  have bac : (str "a" == str "c") = false := by decide
  have bca : (str "c" == str "a") = false := by decide
  have bbc : (str "b" == str "c") = false := by decide
  have bcb : (str "c" == str "b") = false := by decide
  have nab : str "a" ≠ str "b" := by decide
  have nba : str "b" ≠ str "a" := by decide
  have nac : str "a" ≠ str "c" := by decide
  have nca : str "c" ≠ str "a" := by decide
  have nbc : str "b" ≠ str "c" := by decide
  have ncb : str "c" ≠ str "b" := by decide
  refine ⟨?_, ?_, by norm_num, ?_, by norm_num, ?_⟩
  · simp [semanticSearch, similaritySearchCap, matchesFilter, semanticScoreStep,
      mapSet, mapGet, getScore, sortDescBy, insertDescBy, List.find?, jsOrNat,
      hva, hvb, hc, bab, bba, nab, nba]
  · simp [hybridScores, hybridSemStep, hybridStructStep, mapSet, mapGet, List.find?,
      bab, bba, bac, bca, bbc, bcb, nab, nba, nac, nca, nbc, ncb]
    norm_num
  · simp [hybridScores, hybridSemStep, hybridStructStep, mapSet, mapGet, List.find?,
      bab, bba, bac, bca, bbc, bcb, nab, nba, nac, nca, nbc, ncb]
    norm_num
  · simp [hybridMerge, hybridScores, hybridSemStep, hybridStructStep, mapSet, mapGet,
      List.find?, sortDescBy, insertDescBy, hc2, hc3, List.enum, List.enumFrom, jsOrNat,
      bab, bba, bac, bca, bbc, bcb, nab, nba, nac, nca, nbc, ncb]
    norm_num [insertDescBy, hc2, hc3]

/-- Witness instantiating `c2_hybridMerge_amended` on the lists of the
counterexample scenario. -/
theorem c2_hybridMerge_amended_witness :
    ([str "a", str "b"] : List (List Char)).Nodup ∧
    ([str "a", str "c"] : List (List Char)).Nodup ∧
    mapGet (hybridScores [str "a", str "b"] [str "a", str "c"]) (str "a") =
      some ((((2 : ℚ) - 0) / 2) * (3 / 2) + (((2 : ℚ) - 0) / 2) * (1 / 2)) :=
  ⟨by decide, by decide,
   ((c2_hybridMerge_amended [str "a", str "b"] [str "a", str "c"] (str "a") 10
      (by decide) (by decide)).1 0 rfl 0 rfl)⟩

/-! ### Store lemmas for the indexer claims -/

theorem runSteps_append (s : Store) (l1 l2 : List Step) :
    runSteps s (l1 ++ l2) = runSteps (runSteps s l1) l2 :=
  List.foldl_append applyStep s l1 l2

theorem runSteps_vecUpserts_files (s : Store) :
    ∀ bs : List (List (List Char)),
      (runSteps s (bs.map Step.vecUpsert)).files = s.files := by
  intro bs
  induction bs generalizing s with
  | nil => rfl
  | cons b bs ih =>
    show (runSteps (applyStep s (Step.vecUpsert b)) (bs.map Step.vecUpsert)).files = _
    rw [ih]
    rfl

theorem runSteps_vecThenUpsert_files (s : Store) (bs : List (List (List Char)))
    (r : NasFileRec) :
    (runSteps s (bs.map Step.vecUpsert ++ [Step.fileUpsert r])).files =
      upsertFile s.files r := by
  rw [runSteps_append]
  have h1 : ∀ X : Store, (runSteps X [Step.fileUpsert r]).files = upsertFile X.files r :=
    fun X => rfl
  rw [h1, runSteps_vecUpserts_files]

theorem runIndexFile_files (s : Store) (meta : FileMetadataM) (content : List Char)
    (statsSize : Nat) (filePath userId : List Char) (cid : Option (List Char))
    (now : Int) (recId : List Char) :
    (runIndexFile s meta content statsSize filePath userId cid now recId).files =
      upsertFile s.files
        (indexFileRec meta content statsSize filePath userId cid now recId) := by
  have hsteps : indexFileSteps meta content statsSize filePath userId cid now recId =
      (chunksOf 100 (indexChunksIds meta.checksum (chunkContent content 1000))).map
          Step.vecUpsert ++
        [Step.fileUpsert (indexFileRec meta content statsSize filePath userId cid now recId)] :=
    rfl
  show (runSteps s (indexFileSteps meta content statsSize filePath userId cid now recId)).files = _
  rw [hsteps]
  exact runSteps_vecThenUpsert_files s _ _

theorem sameKey_applyUpdate (rec f : NasFileRec) :
    sameKey rec (applyUpdate rec f) = sameKey rec f := rfl

theorem sameKey_true_iff (rec f : NasFileRec) :
    sameKey rec f = true ↔ f.userId = rec.userId ∧ f.filePath = rec.filePath := by
  unfold sameKey
  rw [Bool.and_eq_true, beq_iff_eq, beq_iff_eq]

theorem upsertKeys_preserved (rec f : NasFileRec) :
    (if sameKey rec f then applyUpdate rec f else f).userId = f.userId ∧
      (if sameKey rec f then applyUpdate rec f else f).filePath = f.filePath := by
  split <;> exact ⟨rfl, rfl⟩

theorem uniqueFileKeys_upsertFile (files : List NasFileRec) (rec : NasFileRec)
    (h : uniqueFileKeys files) : uniqueFileKeys (upsertFile files rec) := by
  unfold upsertFile
  split
  · unfold uniqueFileKeys
    rw [List.pairwise_map]
    refine h.imp ?_
    intro a b hab hc
    apply hab
    refine ⟨?_, ?_⟩
    · exact ((upsertKeys_preserved rec a).1.symm.trans hc.1).trans
        (upsertKeys_preserved rec b).1
    · exact ((upsertKeys_preserved rec a).2.symm.trans hc.2).trans
        (upsertKeys_preserved rec b).2
  · rename_i hany
    unfold uniqueFileKeys
    rw [List.pairwise_append]
    refine ⟨h, List.pairwise_singleton _ _, ?_⟩
    intro a ha b hb hc
    rw [List.mem_singleton.1 hb] at hc
    have hkey : sameKey rec a = true := sameKey_true_iff rec a |>.2 ⟨hc.1.symm ▸ rfl, ?_⟩
    · exact absurd (List.any_eq_true.2 ⟨a, ha, hkey⟩) (by simpa using hany)
    · rw [hc.2]

theorem filter_map_update (rec : NasFileRec) :
    ∀ files : List NasFileRec, uniqueFileKeys files →
      files.any (sameKey rec) = true →
      ((files.map (fun f => if sameKey rec f then applyUpdate rec f else f)).filter
          (sameKey rec)).map NasFileRec.vectorIds = [rec.vectorIds] := by
  intro files
  induction files with
  | nil =>
    intro _ hany
    cases hany
  | cons f fs ih =>
    intro h hany
    rcases List.pairwise_cons.1 h with ⟨hfirst, hrest⟩
    by_cases hf : sameKey rec f = true
    · have hnone : ∀ g ∈ fs, ¬(sameKey rec g = true) := by
        intro g hg hgk
        rcases sameKey_true_iff rec f |>.1 hf with ⟨hf1, hf2⟩
        rcases sameKey_true_iff rec g |>.1 hgk with ⟨hg1, hg2⟩
        exact hfirst g hg ⟨hf1.trans hg1.symm, hf2.trans hg2.symm⟩
      have htail : ((fs.map (fun f => if sameKey rec f then applyUpdate rec f else f)).filter
          (sameKey rec)) = [] := by
        rw [List.filter_eq_nil_iff]
        intro x hx
        rcases List.mem_map.1 hx with ⟨g, hg, hgx⟩
        rw [if_neg (hnone g hg)] at hgx
        rw [← hgx]
        exact hnone g hg
      simp only [List.map_cons, List.filter_cons]
      rw [if_pos hf, sameKey_applyUpdate, if_pos hf]
      rw [List.map_cons, htail]
      rfl
    · have hff : sameKey rec f = false := by
        cases hb : sameKey rec f
        · rfl
        · exact absurd hb hf
      have hany' : fs.any (sameKey rec) = true := by
        rw [List.any_cons, hff] at hany
        simpa using hany
      simp only [List.map_cons, List.filter_cons]
      rw [if_neg hf, if_neg hf]
      exact ih hrest hany'

theorem filter_upsertFile_vectorIds (files : List NasFileRec) (rec : NasFileRec)
    (h : uniqueFileKeys files) :
    ((upsertFile files rec).filter (sameKey rec)).map NasFileRec.vectorIds =
      [rec.vectorIds] := by
  unfold upsertFile
  split
  · rename_i hany
    exact filter_map_update rec files h hany
  · rename_i hany
    rw [List.filter_append]
    have h1 : files.filter (sameKey rec) = [] := by
      rw [List.filter_eq_nil_iff]
      intro x hx hxk
      exact absurd (List.any_eq_true.2 ⟨x, hx, hxk⟩) (by simpa using hany)
    have h2 : [rec].filter (sameKey rec) = [rec] := by
      have : sameKey rec rec = true := sameKey_true_iff rec rec |>.2 ⟨rfl, rfl⟩
      simp [List.filter_cons, this]
    rw [h1, h2]
    rfl

/-! ## Claim C7 -/

/-- C7: calling `indexFile` twice in succession on the same
`(userId, filePath)` with unchanged content (hence the same
`extractFileMetadata` result `meta` and the same checksum-derived vector
ids) leaves exactly one `NasFile` row for that key, whose `vectorIds`
equals the list the second call produced — replaced, not appended.  The
hypothesis is the schema's unique index on `(userId, filePath)`. -/
theorem c7_indexFile_idempotent (s0 : Store) (meta : FileMetadataM)
    (content : List Char) (statsSize : Nat) (filePath userId : List Char)
    (cid : Option (List Char)) (now1 now2 : Int) (recId1 recId2 : List Char)
    (h : uniqueFileKeys s0.files) :
    (((runIndexFile (runIndexFile s0 meta content statsSize filePath userId cid now1 recId1)
          meta content statsSize filePath userId cid now2 recId2).files.filter
        (fun f => f.userId == userId && f.filePath == filePath)).map
      NasFileRec.vectorIds =
      [indexChunksIds meta.checksum (chunkContent content 1000)]) ∧
    ((runIndexFile (runIndexFile s0 meta content statsSize filePath userId cid now1 recId1)
          meta content statsSize filePath userId cid now2 recId2).files.filter
        (fun f => f.userId == userId && f.filePath == filePath)).length = 1 := by
  have hrec2 : (indexFileRec meta content statsSize filePath userId cid now2 recId2).vectorIds =
      indexChunksIds meta.checksum (chunkContent content 1000) := rfl
  have hpred : (fun f : NasFileRec => f.userId == userId && f.filePath == filePath) =
      sameKey (indexFileRec meta content statsSize filePath userId cid now2 recId2) := rfl
  have hfiles :
      (runIndexFile (runIndexFile s0 meta content statsSize filePath userId cid now1 recId1)
          meta content statsSize filePath userId cid now2 recId2).files =
      upsertFile
        (upsertFile s0.files (indexFileRec meta content statsSize filePath userId cid now1 recId1))
        (indexFileRec meta content statsSize filePath userId cid now2 recId2) := by
    rw [runIndexFile_files, runIndexFile_files]
  have huniq1 : uniqueFileKeys
      (upsertFile s0.files (indexFileRec meta content statsSize filePath userId cid now1 recId1)) :=
    uniqueFileKeys_upsertFile _ _ h
  have hmain := filter_upsertFile_vectorIds
    (upsertFile s0.files (indexFileRec meta content statsSize filePath userId cid now1 recId1))
    (indexFileRec meta content statsSize filePath userId cid now2 recId2) huniq1
  constructor
  · rw [hfiles, hpred]
    rw [hmain, hrec2]
  · have hlen := congrArg List.length hmain
    rw [List.length_map] at hlen
    rw [hfiles, hpred]
    exact hlen

/-- Witness instantiating `c7_indexFile_idempotent` on the empty catalog. -/
theorem c7_indexFile_idempotent_witness :
    uniqueFileKeys emptyStore.files ∧
    (((runIndexFile (runIndexFile emptyStore ⟨str "abc", 3, str "text", [], [], [], none⟩
            (str "Hi. Bye") 7 (str "/users/u/f.txt") (str "u") none 0 (str "id1"))
          ⟨str "abc", 3, str "text", [], [], [], none⟩
          (str "Hi. Bye") 7 (str "/users/u/f.txt") (str "u") none 1 (str "id2")).files.filter
        (fun f => f.userId == str "u" && f.filePath == str "/users/u/f.txt")).map
      NasFileRec.vectorIds =
      [indexChunksIds (str "abc") (chunkContent (str "Hi. Bye") 1000)]) :=
  ⟨List.Pairwise.nil,
   (c7_indexFile_idempotent emptyStore ⟨str "abc", 3, str "text", [], [], [], none⟩
     (str "Hi. Bye") 7 (str "/users/u/f.txt") (str "u") none 0 1 (str "id1") (str "id2")
     List.Pairwise.nil).1⟩

/-! ## Claim C9 -/

theorem uniqueKeys_eq_of_key {files : List NasFileRec} (h : uniqueFileKeys files)
    {f g : NasFileRec} (hf : f ∈ files) (hg : g ∈ files)
    (hu : f.userId = g.userId) (hp : f.filePath = g.filePath) : f = g := by
  by_contra hne
  have hsymm : Symmetric (fun a b : NasFileRec =>
      ¬(a.userId = b.userId ∧ a.filePath = b.filePath)) := by
    intro a b hab hc
    exact hab ⟨hc.1.symm, hc.2.symm⟩
  exact (h.forall hsymm) hf hg hne ⟨hu, hp⟩

/-- C9: `removeFileFromIndex` on a `(userId, path)` without a `NasFile`
row returns with the state unchanged — neither the Metadata Catalog nor
the Vector Index is touched and nothing is raised (the embedding is a
total function into `Store`); consequently, under the schema's unique
`(userId, filePath)` key, removing twice equals removing once. -/
theorem c9_removeFileFromIndex_idempotent :
    (∀ (s : Store) (filePath userId : List Char),
      findFileRec s.files filePath userId = none →
      removeFileFromIndex s filePath userId = s) ∧
    (∀ (s : Store) (filePath userId : List Char), uniqueFileKeys s.files →
      removeFileFromIndex (removeFileFromIndex s filePath userId) filePath userId =
        removeFileFromIndex s filePath userId) := by
  constructor
  · intro s filePath userId hnone
    unfold removeFileFromIndex
    rw [hnone]
  · intro s filePath userId h
    cases hfind : findFileRec s.files filePath userId with
    | none =>
      have h1 : removeFileFromIndex s filePath userId = s := by
        unfold removeFileFromIndex
        rw [hfind]
      rw [h1]
      exact h1
    | some f =>
      have hfk := List.find?_some hfind
      simp only [] at hfk
      rw [Bool.and_eq_true] at hfk
      rcases hfk with ⟨hfp, hfu⟩
      have hfmem := List.mem_of_find?_eq_some hfind
      have e1 : removeFileFromIndex s filePath userId =
          applyStep
            (if 0 < f.vectorIds.length then applyStep s (Step.vecDelete f.vectorIds)
             else s)
            (Step.fileDelete f.id) := by
        unfold removeFileFromIndex
        rw [hfind]
      have hfiles1 : (removeFileFromIndex s filePath userId).files =
          s.files.filter (fun g => g.id != f.id) := by
        rw [e1]
        by_cases hv : 0 < f.vectorIds.length
        · rw [if_pos hv]
          rfl
        · rw [if_neg hv]
          rfl
      have hnone2 : findFileRec (removeFileFromIndex s filePath userId).files
          filePath userId = none := by
        rw [hfiles1]
        unfold findFileRec
        rw [List.find?_eq_none]
        intro g hgmem hgk
        rcases List.mem_filter.1 hgmem with ⟨hgs, hgid⟩
        rw [Bool.and_eq_true] at hgk
        rcases hgk with ⟨hgp, hgu⟩
        have hgf : g = f := uniqueKeys_eq_of_key h hgs hfmem
          ((eq_of_beq hgu).trans (eq_of_beq hfu).symm)
          ((eq_of_beq hgp).trans (eq_of_beq hfp).symm)
        rw [hgf] at hgid
        simp at hgid
      generalize hS : removeFileFromIndex s filePath userId = s2 at hnone2 ⊢
      unfold removeFileFromIndex
      rw [hnone2]

/-- Witness instantiating `c9_removeFileFromIndex_idempotent` on concrete
states. -/
theorem c9_removeFileFromIndex_idempotent_witness :
    (findFileRec emptyStore.files (str "/users/u/f.txt") (str "u") = none ∧
      removeFileFromIndex emptyStore (str "/users/u/f.txt") (str "u") = emptyStore) ∧
    (uniqueFileKeys emptyStore.files ∧
      removeFileFromIndex (removeFileFromIndex emptyStore (str "/users/u/f.txt") (str "u"))
          (str "/users/u/f.txt") (str "u") =
        removeFileFromIndex emptyStore (str "/users/u/f.txt") (str "u")) :=
  ⟨⟨rfl, c9_removeFileFromIndex_idempotent.1 emptyStore (str "/users/u/f.txt") (str "u") rfl⟩,
   ⟨List.Pairwise.nil,
    c9_removeFileFromIndex_idempotent.2 emptyStore (str "/users/u/f.txt") (str "u")
      List.Pairwise.nil⟩⟩

/-! ## Claim C1 -/

/-- C1 (code bug, evaluated at the failing input): `saveConversation`
upserts its documents through `PineconeStore.addDocuments` WITHOUT
passing ids — the external store assigns its own (here `pine-uuid-0`) —
and then creates the `NasFile` row with the synthesized ids
`vec_${conversationId}_${i}`, which were never written to the Vector
Index.  After saving a one-message conversation the catalog row lists
`vec_c1_0`, the index holds only `pine-uuid-0`, and the invariant
`recordsBacked` of the claim is violated.  (`indexFile` itself respects
the invariant; the save-conversation path breaks it.) -/
theorem c1_saveConversation_unbacked_vectorIds :
    ¬ recordsBacked (runSteps emptyStore
      (saveConversationSteps [⟨str "user", str "hi"⟩] (str "u") (str "c1")
        [str "pine-uuid-0"] 0 (str "f1") none [] none (str "json"))) ∧
    (runSteps emptyStore
      (saveConversationSteps [⟨str "user", str "hi"⟩] (str "u") (str "c1")
        [str "pine-uuid-0"] 0 (str "f1") none [] none (str "json"))).vectorIds =
      [str "pine-uuid-0"] ∧
    (runSteps emptyStore
      (saveConversationSteps [⟨str "user", str "hi"⟩] (str "u") (str "c1")
        [str "pine-uuid-0"] 0 (str "f1") none [] none (str "json"))).files.map
      NasFileRec.vectorIds = [[str "vec_c1_0"]] := by
  refine ⟨by decide, rfl, rfl⟩

/-! ### Filter-splitting lemmas for the user-scoping claim -/

theorem filter_and_split {α : Type} (p q : α → Bool) (l : List α) :
    l.filter (fun x => p x && q x) = (l.filter p).filter q := by
  rw [List.filter_filter]
  congr 1
  funext x
  exact Bool.and_comm (p x) (q x)

theorem matchesFilter_split (userId : List Char) (fto : Option (List (List Char))) :
    matchesFilter ⟨userId, fto⟩ =
      fun e => (e.userId == userId) && matchesFilterRest fto e := rfl

theorem whereMatch_split (filters : SearchFilters) (userId : List Char)
    (options : SearchOptions) :
    whereMatch filters userId options =
      fun f => (f.userId == userId) && whereMatchRest filters options f := rfl

theorem mem_semanticScoreFold :
    ∀ (rs : List VectorEntry) (m0 : List (List Char × ℚ)) (x : List Char × ℚ),
      x ∈ rs.foldl semanticScoreStep m0 → x ∈ m0 ∨ ∃ r ∈ rs, x.1 = r.filePath := by
  intro rs
  induction rs with
  | nil => exact fun m0 x hx => Or.inl hx
  | cons r rs ih =>
    intro m0 x hx
    rcases ih (semanticScoreStep m0 r) x hx with h1 | ⟨r', hr', he⟩
    · rcases mem_mapSet h1 with h2 | h2
      · exact Or.inl h2
      · exact Or.inr ⟨r, List.mem_cons_self r rs, h2⟩
    · exact Or.inr ⟨r', List.mem_cons_of_mem r hr', he⟩

theorem mem_hybridSemFold (n : Nat) :
    ∀ (qs : List (Nat × List Char)) (m0 : List (List Char × ℚ)) (x : List Char × ℚ),
      x ∈ qs.foldl (hybridSemStep n) m0 → x ∈ m0 ∨ ∃ q ∈ qs, x.1 = q.2 := by
  intro qs
  induction qs with
  | nil => exact fun m0 x hx => Or.inl hx
  | cons q qs ih =>
    intro m0 x hx
    rcases ih (hybridSemStep n m0 q) x hx with h1 | ⟨q', hq', he⟩
    · rcases mem_mapSet h1 with h2 | h2
      · exact Or.inl h2
      · exact Or.inr ⟨q, List.mem_cons_self q qs, h2⟩
    · exact Or.inr ⟨q', List.mem_cons_of_mem q hq', he⟩

theorem mem_hybridStructFold (m1 : Nat) :
    ∀ (qs : List (Nat × List Char)) (m0 : List (List Char × ℚ)) (x : List Char × ℚ),
      x ∈ qs.foldl (hybridStructStep m1) m0 → x ∈ m0 ∨ ∃ q ∈ qs, x.1 = q.2 := by
  intro qs
  induction qs with
  | nil => exact fun m0 x hx => Or.inl hx
  | cons q qs ih =>
    intro m0 x hx
    rcases ih (hybridStructStep m1 m0 q) x hx with h1 | ⟨q', hq', he⟩
    · rcases mem_mapSet h1 with h2 | h2
      · exact Or.inl h2
      · exact Or.inr ⟨q, List.mem_cons_self q qs, h2⟩
    · exact Or.inr ⟨q', List.mem_cons_of_mem q hq', he⟩

theorem mem_keys_hybridScores {sem struct : List (List Char)} {x : List Char × ℚ}
    (hx : x ∈ hybridScores sem struct) : x.1 ∈ sem ∨ x.1 ∈ struct := by
  unfold hybridScores at hx
  rcases mem_hybridStructFold struct.length struct.enum _ x hx with h1 | ⟨q, hq, he⟩
  · rcases mem_hybridSemFold sem.length sem.enum _ x h1 with h2 | ⟨q, hq, he⟩
    · cases h2
    · left
      rw [he]
      rcases List.mem_enum hq with ⟨hlt, hqe⟩
      rw [hqe]
      exact List.getElem_mem hlt
  · right
    rw [he]
    rcases List.mem_enum hq with ⟨hlt, hqe⟩
    rw [hqe]
    exact List.getElem_mem hlt

theorem mem_lastByPath {records : List NasFileRec} {p : List Char} {rec : NasFileRec}
    (h : lastByPath records p = some rec) :
    rec ∈ records ∧ (rec.filePath == p) = true := by
  unfold lastByPath at h
  have hmem : rec ∈ records.filter (fun f => f.filePath == p) := by
    rcases List.mem_getLast?_eq_getLast (Option.mem_def.2 h) with ⟨hne, heq⟩
    rw [heq]
    exact List.getLast_mem hne
  rcases List.mem_filter.1 hmem with ⟨h1, h2⟩
  exact ⟨h1, h2⟩

/-! ## Claim C8 -/

/-- C8: every search leg is scoped by a mandatory `userId` filter.
Ownership: each path returned by `semanticSearch`, `structuredSearch` and
`hybridSearch`, and each non-null result of `retrieveFileContents`, comes
from a Vector Index entry or catalog row owned by `userId`.
Noninterference: replacing the Vector Index, the Metadata Catalog and the
blob store by any others that agree on the data owned by `userId` leaves
all four results unchanged — another user's stored data can never affect
them. -/
theorem c8_search_user_scoping (index index' : List VectorEntry)
    (catalog catalog' : List NasFileRec)
    (nas nas' : List Char → Option (List Char)) (userId : List Char)
    (options : SearchOptions) (filters : SearchFilters)
    (filePaths : List (List Char))
    (hidx : index'.filter (fun e => e.userId == userId) =
      index.filter (fun e => e.userId == userId))
    (hcat : catalog'.filter (fun f => f.userId == userId) =
      catalog.filter (fun f => f.userId == userId))
    (hnas : ∀ p : List Char, (∃ f ∈ catalog, f.userId = userId ∧ f.filePath = p) →
      nas' p = nas p) :
    (∀ p ∈ semanticSearch index userId options,
      ∃ e ∈ index, e.userId = userId ∧ e.filePath = p) ∧
    (∀ p ∈ structuredSearch catalog filters userId options,
      ∃ f ∈ catalog, f.userId = userId ∧ f.filePath = p) ∧
    (∀ p ∈ hybridSearch index catalog filters userId options,
      (∃ e ∈ index, e.userId = userId ∧ e.filePath = p) ∨
        ∃ f ∈ catalog, f.userId = userId ∧ f.filePath = p) ∧
    (∀ r : SearchResultM, some r ∈ retrieveFileContents catalog nas filePaths userId →
      ∃ f ∈ catalog, f.userId = userId ∧ f.id = r.id ∧ f.filePath = r.path) ∧
    semanticSearch index' userId options = semanticSearch index userId options ∧
    structuredSearch catalog' filters userId options =
      structuredSearch catalog filters userId options ∧
    hybridSearch index' catalog' filters userId options =
      hybridSearch index catalog filters userId options ∧
    retrieveFileContents catalog' nas' filePaths userId =
      retrieveFileContents catalog nas filePaths userId := by
  have hsemShape : ∀ idx : List VectorEntry, semanticSearch idx userId options =
      ((sortDescBy Prod.snd
        (((idx.filter (matchesFilter ⟨userId,
            match options.fileTypes with
            | some ts => if ts.length ≠ 0 then some ts else none
            | none => none⟩)).take (jsOrNat options.limit 20)).foldl
          semanticScoreStep [])).take (jsOrNat options.limit 10)).map Prod.fst :=
    fun idx => rfl
  have hsemOwn : ∀ idx : List VectorEntry, ∀ p ∈ semanticSearch idx userId options,
      ∃ e ∈ idx, e.userId = userId ∧ e.filePath = p := by
    intro idx p hp
    rw [hsemShape idx] at hp
    rcases List.mem_map.1 hp with ⟨pair, hpair, hfst⟩
    have h1 := List.mem_of_mem_take hpair
    have h2 := (mem_sortDescBy Prod.snd pair _).1 h1
    rcases mem_semanticScoreFold _ [] pair h2 with h3 | ⟨r, hr, he⟩
    · cases h3
    · have h4 := List.mem_of_mem_take hr
      rcases List.mem_filter.1 h4 with ⟨h5, h6⟩
      rw [matchesFilter_split] at h6
      rw [Bool.and_eq_true] at h6
      rcases h6 with ⟨h7, _⟩
      exact ⟨r, h5, eq_of_beq h7, by rw [← he, hfst]⟩
  have hsemEq : semanticSearch index' userId options =
      semanticSearch index userId options := by
    rw [hsemShape index', hsemShape index, matchesFilter_split,
      filter_and_split, filter_and_split, hidx]
  have hstructShape : ∀ cat : List NasFileRec,
      structuredSearch cat filters userId options =
      ((((sortDescBy NasFileRec.createdAt
        (cat.filter (whereMatch filters userId options))).drop
          (jsOrNat options.offset 0)).take (jsOrNat options.limit 10)).map
        NasFileRec.filePath) := fun cat => rfl
  have hstructOwn : ∀ cat : List NasFileRec,
      ∀ p ∈ structuredSearch cat filters userId options,
      ∃ f ∈ cat, f.userId = userId ∧ f.filePath = p := by
    intro cat p hp
    rw [hstructShape cat] at hp
    rcases List.mem_map.1 hp with ⟨f, hf, hfp⟩
    have h1 := List.mem_of_mem_drop (List.mem_of_mem_take hf)
    have h2 := (mem_sortDescBy NasFileRec.createdAt f _).1 h1
    rcases List.mem_filter.1 h2 with ⟨h3, h4⟩
    rw [whereMatch_split] at h4
    rw [Bool.and_eq_true] at h4
    rcases h4 with ⟨h5, _⟩
    exact ⟨f, h3, eq_of_beq h5, hfp⟩
  have hstructEq : structuredSearch catalog' filters userId options =
      structuredSearch catalog filters userId options := by
    rw [hstructShape catalog', hstructShape catalog, whereMatch_split,
      filter_and_split, filter_and_split, hcat]
  have hretShape : ∀ (cat : List NasFileRec) (nasF : List Char → Option (List Char)),
      retrieveFileContents cat nasF filePaths userId =
      filePaths.map (fun p =>
        match lastByPath (cat.filter
            (fun f => filePaths.contains f.filePath && f.userId == userId)) p with
        | none => none
        | some rec =>
          match nasF p with
          | none => none
          | some content =>
            some ⟨rec.id, rec.filePath, rec.fileName, jsOrStr rec.fileType (str "unknown"),
              content, rec.tags, jsStrOrNone rec.summary, rec.createdAt, 1⟩) :=
    fun cat nasF => rfl
  have hrecords : catalog'.filter
      (fun f => filePaths.contains f.filePath && f.userId == userId) =
      catalog.filter (fun f => filePaths.contains f.filePath && f.userId == userId) := by
    rw [filter_and_split, filter_and_split]
    have hcomm : ∀ cat : List NasFileRec,
        (cat.filter (fun f => filePaths.contains f.filePath)).filter
          (fun f => f.userId == userId) =
        (cat.filter (fun f => f.userId == userId)).filter
          (fun f => filePaths.contains f.filePath) := by
      intro cat
      rw [List.filter_filter, List.filter_filter]
      congr 1
      funext f
      exact Bool.and_comm _ _
    rw [hcomm, hcomm, hcat]
  have hrecordsOwn : ∀ {rec : NasFileRec},
      rec ∈ catalog.filter
        (fun f => filePaths.contains f.filePath && f.userId == userId) →
      rec ∈ catalog ∧ rec.userId = userId := by
    intro rec hrec
    rcases List.mem_filter.1 hrec with ⟨h1, h2⟩
    rw [Bool.and_eq_true] at h2
    rcases h2 with ⟨_, h3⟩
    exact ⟨h1, eq_of_beq h3⟩
  have hretOwn : ∀ r : SearchResultM,
      some r ∈ retrieveFileContents catalog nas filePaths userId →
      ∃ f ∈ catalog, f.userId = userId ∧ f.id = r.id ∧ f.filePath = r.path := by
    intro r hr
    rw [hretShape catalog nas] at hr
    rcases List.mem_map.1 hr with ⟨p, _, hpr⟩
    cases hlast : lastByPath (catalog.filter
        (fun f => filePaths.contains f.filePath && f.userId == userId)) p with
    | none =>
      rw [hlast] at hpr
      cases hpr
    | some rec =>
      rw [hlast] at hpr
      cases hnasp : nas p with
      | none =>
        rw [hnasp] at hpr
        cases hpr
      | some content =>
        rw [hnasp] at hpr
        have hrec := Option.some.inj hpr
        rcases mem_lastByPath hlast with ⟨hmem, _⟩
        rcases hrecordsOwn hmem with ⟨hcatmem, huser⟩
        refine ⟨rec, hcatmem, huser, ?_, ?_⟩
        · rw [← hrec]
        · rw [← hrec]
  have hretEq : retrieveFileContents catalog' nas' filePaths userId =
      retrieveFileContents catalog nas filePaths userId := by
    rw [hretShape catalog' nas', hretShape catalog nas, hrecords]
    apply List.map_congr_left
    intro p _
    cases hlast : lastByPath (catalog.filter
        (fun f => filePaths.contains f.filePath && f.userId == userId)) p with
    | none => rfl
    | some rec =>
      rcases mem_lastByPath hlast with ⟨hmem, hpath⟩
      rcases hrecordsOwn hmem with ⟨hcatmem, huser⟩
      have hnasp : nas' p = nas p :=
        hnas p ⟨rec, hcatmem, huser, eq_of_beq hpath⟩
      rw [hnasp]
  have hhybOwn : ∀ p ∈ hybridSearch index catalog filters userId options,
      (∃ e ∈ index, e.userId = userId ∧ e.filePath = p) ∨
        ∃ f ∈ catalog, f.userId = userId ∧ f.filePath = p := by
    intro p hp
    unfold hybridSearch hybridMerge at hp
    rcases List.mem_map.1 hp with ⟨pair, hpair, hfst⟩
    have h1 := List.mem_of_mem_take hpair
    have h2 := (mem_sortDescBy Prod.snd pair _).1 h1
    rcases mem_keys_hybridScores h2 with h3 | h3
    · left
      rcases hsemOwn index pair.1 h3 with ⟨e, he, hu, hpth⟩
      exact ⟨e, he, hu, by rw [hpth, hfst]⟩
    · right
      rcases hstructOwn catalog pair.1 h3 with ⟨f, hf, hu, hpth⟩
      exact ⟨f, hf, hu, by rw [hpth, hfst]⟩
  have hhybEq : hybridSearch index' catalog' filters userId options =
      hybridSearch index catalog filters userId options := by
    unfold hybridSearch
    rw [hsemEq, hstructEq]
  exact ⟨hsemOwn index, hstructOwn catalog, hhybOwn, hretOwn, hsemEq, hstructEq,
    hhybEq, hretEq⟩

/-- Witness instantiating `c8_search_user_scoping` on concrete stores. -/
theorem c8_search_user_scoping_witness :
    (([] : List VectorEntry).filter (fun e => e.userId == str "u") =
      ([] : List VectorEntry).filter (fun e => e.userId == str "u")) ∧
    (([] : List NasFileRec).filter (fun f => f.userId == str "u") =
      ([] : List NasFileRec).filter (fun f => f.userId == str "u")) ∧
    semanticSearch ([] : List VectorEntry) (str "u") ⟨none, none, none, none, none⟩ =
      semanticSearch ([] : List VectorEntry) (str "u") ⟨none, none, none, none, none⟩ ∧
    (∀ r : SearchResultM,
      some r ∈ retrieveFileContents ([] : List NasFileRec) (fun _ => none) [] (str "u") →
      ∃ f ∈ ([] : List NasFileRec),
        f.userId = str "u" ∧ f.id = r.id ∧ f.filePath = r.path) :=
  ⟨rfl, rfl,
   (c8_search_user_scoping [] [] [] [] (fun _ => none) (fun _ => none) (str "u")
     ⟨none, none, none, none, none⟩ ⟨none, none, none, none⟩ [] rfl rfl
     (fun _ _ => rfl)).2.2.2.2.1,
   (c8_search_user_scoping [] [] [] [] (fun _ => none) (fun _ => none) (str "u")
     ⟨none, none, none, none, none⟩ ⟨none, none, none, none⟩ [] rfl rfl
     (fun _ _ => rfl)).2.2.2.1⟩

end Trinity
